import Mathlib

/-!
# muimage: page-range driven image extraction

A shallow embedding of `source/tools/muimage.c` (`extract_page_images`,
`extract_range`, `muimage_main`) and the properties of its page iteration,
name generation, failure isolation and resource handling.

The tool is a sequence of calls into the fitz library.  The library is not
part of the sources; every call the tool makes is represented by the outcome
the library gives (returns / throws / value), bundled in `Block`,
`PageScript`, `Document` and `Fitz`.  What the tool does is recorded as a
list of `Event`s, in program order.

C `int` values are embedded as `Int`.  The page counter of `extract_range`
is stepped past the end of its run, so a run that ends at `INT_MAX` (or, going
down, at `INT_MIN`) overflows it: signed overflow has no defined result, and
`extract_range` and everything that calls it return an `Option`, `none` being
a run without defined result.  The image counter `img_index` is stepped once
per image block of one page and is embedded without a bound (a page would
need `INT_MAX` image blocks to overflow it).  Where a statement depends on
the `int` range (the run bounds, the fixed-size name and path buffers) the
bound is an explicit hypothesis.
-/

namespace MuImage

/-- A C string: the characters before the terminating NUL. -/
abbrev CStr := List Char

/-! ## Formatting: `fz_snprintf` -/

/-- The largest value of a C `int`. -/
def INT_MAX : Int := 2147483647

/-- The smallest value of a C `int`. -/
def INT_MIN : Int := -2147483648

/-- Exit status constants of `<stdlib.h>`. -/
def EXIT_SUCCESS : Int := 0

/-- Exit status constants of `<stdlib.h>`. -/
def EXIT_FAILURE : Int := 1

/-- The decimal digit character of a value below ten. -/
def digitChar : Nat → Char
  | 0 => '0' | 1 => '1' | 2 => '2' | 3 => '3' | 4 => '4'
  | 5 => '5' | 6 => '6' | 7 => '7' | 8 => '8' | _ => '9'

/-- The digit-producing loop of a decimal conversion,
`while (a) { buf[i++] = digit(a % 10); a /= 10; }`: the digits of `a`, least
significant first.  The first argument bounds the number of iterations; `a`
itself is always enough, since `a / 10 < a` while `a` is not zero. -/
def digitsLoop : Nat → Nat → List Char
  | 0, _ => []
  | fuel + 1, a => if a = 0 then [] else digitChar (a % 10) :: digitsLoop fuel (a / 10)

/-- The digits of an unsigned value, least significant first; zero is the
single digit `0`. -/
def fmtuint (a : Nat) : List Char :=
  if a = 0 then ['0'] else digitsLoop a a

/-- Modelled from the spec: the `%0<w>d` conversion of `fz_snprintf`, whose
body is not among the sources.  The spec's fields `<page:3digits>` and
`<index:4digits>` are the conversions `%03d` and `%04d` of the format string
in `extract_page_images`: the decimal digits of the value, zero-padded on the
left to a minimum width of `w` characters (a minus sign counts towards the
width); a value with more than `w` digits is printed in full. -/
def fmtint (w : Nat) (value : Int) : CStr :=
  let buf := fmtuint value.natAbs
  if value < 0 then
    '-' :: (List.replicate (w - 1 - buf.length) '0' ++ buf.reverse)
  else
    List.replicate (w - buf.length) '0' ++ buf.reverse

/-- Modelled from the spec: the buffer bound of `fz_snprintf(buf, size, ...)`,
whose body is not among the sources: at most `size - 1` characters of the
formatted text are stored, followed by the terminating NUL. -/
def fz_snprintf (size : Nat) (formatted : CStr) : CStr :=
  formatted.take (size - 1)

/-- The contents of `namebuf` after
`fz_snprintf(namebuf, sizeof(namebuf), "page-%03d-img-%04d", page_number, img_index++)`
with `char namebuf[128]`. -/
def namebuf (page_number img_index : Int) : CStr :=
  fz_snprintf 128
    ("page-".toList ++ fmtint 3 page_number ++ "-img-".toList ++ fmtint 4 img_index)

/-- The contents of `pathbuf` after
`fz_snprintf(pathbuf, sizeof(pathbuf), "%s/%s.png", outdir, namebuf)`
with `char pathbuf[1024]`. -/
def pathbuf (outdir name : CStr) : CStr :=
  fz_snprintf 1024 (outdir ++ "/".toList ++ name ++ ".png".toList)

/-! ## The library, as seen by the tool -/

/-- One block of a structured page.  `image` is a block whose type is
`FZ_STEXT_BLOCK_IMAGE`; its two flags say whether `fz_get_pixmap_from_image`
and `fz_save_pixmap_as_png` return for it (`false`: the call throws).
`other` is a block of any other type. -/
inductive Block
  | other
  | image (get_pixmap : Bool) (save_png : Bool)
  deriving DecidableEq, Repr

/-- What the library does with a page that was loaded: for each call made on
it, whether the call returns (`false`: it throws), and the block list of the
structured page once the page has been run. -/
structure PageScript where
  bound_page : Bool
  new_stext_page : Bool
  new_stext_device : Bool
  run_page : Bool
  close_device : Bool
  blocks : List Block
  deriving DecidableEq, Repr

/-- The outcome of `fz_load_page`: it throws, returns `NULL`, or returns a
page. -/
inductive LoadResult
  | throws
  | null
  | loaded (pg : PageScript)
  deriving DecidableEq, Repr

/-- An open document: the answers of `fz_needs_password`,
`fz_authenticate_password`, `fz_count_pages` and `fz_load_page` (by 0-based
page index). -/
structure Document where
  needs_password : Bool
  authenticate_password : CStr → Bool
  count_pages : Int
  load_page : Int → LoadResult

/-- The remaining library calls of the tool.

`fz_parse_page_range` is modelled from the spec (its body is not among the
sources): the spec describes the repeated calls on one expression as a lazy,
finite sequence of `(start, end)` pairs; the field gives that sequence for an
expression and a page count.  `fz_is_page_range` is the recogniser of range
expressions.  `fz_new_context` says whether a context is returned (`false`:
`NULL`), `fz_mkdir` whether the call completes (`false`: it throws), and
`fz_open_document` gives the document for a file name (`none`: it throws). -/
structure Fitz where
  fz_parse_page_range : CStr → Int → List (Int × Int)
  fz_is_page_range : CStr → Bool
  fz_new_context : Bool
  fz_mkdir : CStr → Bool
  fz_open_document : CStr → Option Document

/-! ## Observable behaviour -/

/-- The resources `extract_page_images` acquires.  A pixmap is identified by
the value of `img_index` when it is obtained. -/
inductive Res
  | page
  | stext
  | dev
  | pix (img_index : Int)
  deriving DecidableEq, Repr

/-- What the tool does, in program order.  `range` and `extract` mark the
entry of `extract_range` and `extract_page_images`; `acquire` and `drop` are
a resource returned by the library and a `fz_drop_*` call on a non-`NULL`
pointer; `save` is a `fz_save_pixmap_as_png` that returned, `print` a line
written by `printf`, `warn` the `fz_warn` of the page-level `fz_catch`. -/
inductive Event
  | range (expr : CStr)
  | extract (page_number : Int)
  | acquire (r : Res)
  | drop (r : Res)
  | save (path : CStr)
  | print (name : CStr)
  | warn (page_number : Int)
  | usage
  | no_context
  | warn_mkdir (outdir : CStr)
  | drop_document
  | report_error
  | drop_context
  deriving DecidableEq, Repr

/-- How a `fz_try` block ends: it runs to its end, or a `fz_throw` leaves it. -/
inductive Flow
  | normal
  | thrown
  deriving DecidableEq, Repr

/-- The pointers `page`, `stext` and `dev` of `extract_page_images`: `true`
when the pointer is not `NULL`. -/
structure Locals where
  page : Bool
  stext : Bool
  dev : Bool
  deriving DecidableEq, Repr

/-! ## `extract_page_images` -/

/-- The block loop (lines 35-55): walks the block list from `img_index`;
for an image block it obtains the pixmap, formats name and path, saves,
prints the name and drops the pixmap.  A throwing call ends the loop. -/
def blockLoop (page_number : Int) (outdir : CStr) : List Block → Int → Flow × List Event
  | [], _ => (Flow.normal, [])
  | Block.other :: rest, img_index => blockLoop page_number outdir rest img_index
  | Block.image get_pixmap save_png :: rest, img_index =>
    if get_pixmap = false then (Flow.thrown, [])
    else
      let name := namebuf page_number img_index
      let path := pathbuf outdir name
      if save_png = false then (Flow.thrown, [Event.acquire (Res.pix img_index)])
      else
        let tail := blockLoop page_number outdir rest (img_index + 1)
        (tail.1,
          [Event.acquire (Res.pix img_index), Event.save path, Event.print name,
            Event.drop (Res.pix img_index)] ++ tail.2)

/-- The `fz_try` block of `extract_page_images` (lines 19-56): how it ends,
the pointers at that moment, and the events so far. -/
def pageBody (doc : Document) (page_number : Int) (outdir : CStr) :
    Flow × Locals × List Event :=
  match doc.load_page (page_number - 1) with
  | LoadResult.throws => (Flow.thrown, ⟨false, false, false⟩, [])
  | LoadResult.null => (Flow.thrown, ⟨false, false, false⟩, [])
  | LoadResult.loaded pg =>
    if pg.bound_page = false then
      (Flow.thrown, ⟨true, false, false⟩, [Event.acquire Res.page])
    else if pg.new_stext_page = false then
      (Flow.thrown, ⟨true, false, false⟩, [Event.acquire Res.page])
    else if pg.new_stext_device = false then
      (Flow.thrown, ⟨true, true, false⟩, [Event.acquire Res.page, Event.acquire Res.stext])
    else if pg.run_page = false then
      (Flow.thrown, ⟨true, true, true⟩,
        [Event.acquire Res.page, Event.acquire Res.stext, Event.acquire Res.dev])
    else if pg.close_device = false then
      (Flow.thrown, ⟨true, true, true⟩,
        [Event.acquire Res.page, Event.acquire Res.stext, Event.acquire Res.dev])
    else
      let loop := blockLoop page_number outdir pg.blocks 1
      (loop.1, ⟨true, true, true⟩,
        [Event.acquire Res.page, Event.acquire Res.stext, Event.acquire Res.dev] ++ loop.2)

/-- The `fz_always` block of `extract_page_images` (lines 57-62). -/
def pageAlways (l : Locals) : List Event :=
  (if l.dev then [Event.drop Res.dev] else []) ++
  (if l.stext then [Event.drop Res.stext] else []) ++
  (if l.page then [Event.drop Res.page] else [])

/-- The `fz_catch` block of `extract_page_images` (lines 63-66): it runs when
the `fz_try` block was left by a throw, and does not rethrow. -/
def pageCatch (page_number : Int) : Flow → List Event
  | Flow.normal => []
  | Flow.thrown => [Event.warn page_number]

/-- The events of one call `extract_page_images(doc, page_number, outdir)`:
the `fz_try` block, then the `fz_always` block, then the `fz_catch` block
when the `fz_try` block was left by a throw.  The pointers tested in
`fz_always` hold the values assigned in the `fz_try` block. -/
def extract_page_images (doc : Document) (page_number : Int) (outdir : CStr) : List Event :=
  let body := pageBody doc page_number outdir
  Event.extract page_number :: (body.2.2 ++ pageAlways body.2.1 ++ pageCatch page_number body.1)

/-! ## `extract_range` -/

/-- The loop `for (page = spage; page <= epage; page++)` (lines 79-80), from
the current value of `page`.  After the call for page `INT_MAX` the step
`page++` overflows: the run has no defined result (`none`).  The first
argument bounds the number of loop tests; `forUp` passes the trip count plus
one, which is never exhausted (`forUp_step`). -/
def forUpLoop (doc : Document) (outdir : CStr) (epage : Int) : Nat → Int → Option (List Event)
  | 0, _ => none
  | n + 1, page =>
    if page ≤ epage then
      if page = INT_MAX then none
      else
        (forUpLoop doc outdir epage n (page + 1)).map
          (fun rest => extract_page_images doc page outdir ++ rest)
    else some []

/-- The ascending loop of `extract_range`, from `spage`. -/
def forUp (doc : Document) (outdir : CStr) (spage epage : Int) : Option (List Event) :=
  forUpLoop doc outdir epage ((epage + 1 - spage).toNat + 1) spage

/-- The loop `for (page = spage; page >= epage; page--)` (lines 84-85), from
the current value of `page`.  After the call for page `INT_MIN` the step
`page--` overflows: the run has no defined result (`none`).  The first
argument bounds the number of loop tests, as in `forUpLoop`. -/
def forDownLoop (doc : Document) (outdir : CStr) (epage : Int) : Nat → Int → Option (List Event)
  | 0, _ => none
  | n + 1, page =>
    if page ≥ epage then
      if page = INT_MIN then none
      else
        (forDownLoop doc outdir epage n (page - 1)).map
          (fun rest => extract_page_images doc page outdir ++ rest)
    else some []

/-- The descending loop of `extract_range`, from `spage`. -/
def forDown (doc : Document) (outdir : CStr) (spage epage : Int) : Option (List Event) :=
  forDownLoop doc outdir epage ((spage + 1 - epage).toNat + 1) spage

/-- The body of the `while` loop of `extract_range` (lines 77-86), once per
pair the parser yields; `none` as soon as a run has no defined result. -/
def pairsLoop (doc : Document) (outdir : CStr) : List (Int × Int) → Option (List Event)
  | [] => some []
  | (spage, epage) :: rest =>
    match (if spage ≤ epage then forUp doc outdir spage epage
      else forDown doc outdir spage epage) with
    | none => none
    | some run => (pairsLoop doc outdir rest).map (fun tail => run ++ tail)

/-- The events of one call `extract_range(doc, range, outdir)`. -/
def extract_range (lib : Fitz) (doc : Document) (range outdir : CStr) : Option (List Event) :=
  let pagecount := doc.count_pages
  (pairsLoop doc outdir (lib.fz_parse_page_range range pagecount)).map
    (fun events => Event.range range :: events)

/-! ## `muimage_main` -/

/-- The outcome of the option loop of `muimage_main` (lines 106-114):
`unknown` when `fz_getopt` reports an option that is neither `-p` nor `-o`,
otherwise the values of `password`, `outdir` and `fz_optind` when the loop
ends. -/
inductive OptLoop
  | unknown
  | parsed (password outdir : CStr) (fz_optind : Nat)
  deriving DecidableEq, Repr

/-- The `fz_try` block of `muimage_main` (lines 136-148); `fz_optind` is the
index after the file name.  `none` when an `extract_range` call has no defined
result. -/
def mainBody (lib : Fitz) (argv : List CStr) (fz_optind : Nat)
    (filename password outdir : CStr) : Option (Flow × List Event) :=
  match lib.fz_open_document filename with
  | none => some (Flow.thrown, [])
  | some doc =>
    if doc.needs_password = true ∧ doc.authenticate_password password = false then
      some (Flow.thrown, [])
    else
      let arg := argv.getD fz_optind []
      let first :=
        if fz_optind = argv.length ∨ lib.fz_is_page_range arg = false then
          extract_range lib doc "1-N".toList outdir
        else some []
      let second :=
        if fz_optind < argv.length ∧ lib.fz_is_page_range arg = true then
          extract_range lib doc arg outdir
        else some []
      match first, second with
      | some a, some b => some (Flow.normal, a ++ b)
      | _, _ => none

/-- The exit status and the events of `muimage_main(argc, argv)`, where
`argc` is the length of `argv`; `none` when the run has no defined result. -/
def muimage_main (lib : Fitz) (argv : List CStr) (opts : OptLoop) :
    Option (Int × List Event) :=
  match opts with
  | OptLoop.unknown => some (1, [Event.usage])
  | OptLoop.parsed password outdir fz_optind =>
    if fz_optind = argv.length then some (1, [Event.usage])
    else
      let filename := argv.getD fz_optind []
      if lib.fz_new_context = false then some (1, [Event.no_context])
      else
        let setup := if lib.fz_mkdir outdir then [] else [Event.warn_mkdir outdir]
        match mainBody lib argv (fz_optind + 1) filename password outdir with
        | none => none
        | some (Flow.thrown, events) =>
          some (EXIT_FAILURE, setup ++ events ++ [Event.drop_document, Event.report_error])
        | some (Flow.normal, events) =>
          some (EXIT_SUCCESS, setup ++ events ++ [Event.drop_document, Event.drop_context])

/-! ## Reading a trace -/

/-- The page numbers `extract_page_images` was called with, in order. -/
def extractCalls : List Event → List Int
  | [] => []
  | Event.extract p :: t => p :: extractCalls t
  | _ :: t => extractCalls t

/-- The range expressions `extract_range` was called with, in order. -/
def rangeCalls : List Event → List CStr
  | [] => []
  | Event.range r :: t => r :: rangeCalls t
  | _ :: t => rangeCalls t

/-- The names written to standard output, in order. -/
def printed : List Event → List CStr
  | [] => []
  | Event.print n :: t => n :: printed t
  | _ :: t => printed t

/-- The paths of the files saved, in order. -/
def saved : List Event → List CStr
  | [] => []
  | Event.save p :: t => p :: saved t
  | _ :: t => saved t

/-- The page numbers of the page-level warnings, in order. -/
def warnings : List Event → List Int
  | [] => []
  | Event.warn p :: t => p :: warnings t
  | _ :: t => warnings t

/-- The resources acquired, in order. -/
def acquired : List Event → List Res
  | [] => []
  | Event.acquire r :: t => r :: acquired t
  | _ :: t => acquired t

/-- The resources dropped, in order. -/
def dropped : List Event → List Res
  | [] => []
  | Event.drop r :: t => r :: dropped t
  | _ :: t => dropped t

/-- The page-level resources: all but the pixmaps. -/
def Res.pageLevel : Res → Bool
  | Res.pix _ => false
  | _ => true

/-! ## The specification's vocabulary -/

/-- The run of a pair as the spec words it: `start, start+1, ..., end` when
`start <= end`, and `start, start-1, ..., end` otherwise. -/
def specRun (start stop : Int) : List Int :=
  if start ≤ stop then
    (List.range (stop - start + 1).toNat).map (fun (k : Nat) => start + (k : Int))
  else
    (List.range (start - stop + 1).toNat).map (fun (k : Nat) => start - (k : Int))

/-- The page sequence of a list of pairs: the runs, concatenated in pair
order. -/
def specPages : List (Int × Int) → List Int
  | [] => []
  | (start, stop) :: rest => specRun start stop ++ specPages rest

/-- The number of image blocks of a block list. -/
def imageCount : List Block → Nat
  | [] => 0
  | Block.other :: rest => imageCount rest
  | Block.image _ _ :: rest => imageCount rest + 1

/-- The number of image blocks that precede the first image block whose
rasterization or save fails (all of them when none fails). -/
def imagesBeforeFailure : List Block → Nat
  | [] => 0
  | Block.other :: rest => imagesBeforeFailure rest
  | Block.image get_pixmap save_png :: rest =>
    if get_pixmap = true ∧ save_png = true then imagesBeforeFailure rest + 1 else 0

/-- No rasterization and no save fails on a block list. -/
def blocksOk : List Block → Bool
  | [] => true
  | Block.other :: rest => blocksOk rest
  | Block.image get_pixmap save_png :: rest => get_pixmap && save_png && blocksOk rest

/-- The page-level calls (bounds, structured page, device, interpretation,
close) all return. -/
def PageScript.stepsOk (pg : PageScript) : Bool :=
  pg.bound_page && pg.new_stext_page && pg.new_stext_device && pg.run_page && pg.close_device

/-- The names of the first `k` images of a page: indices `1..k`. -/
def pageNames (page_number : Int) (k : Nat) : List CStr :=
  (List.range k).map (fun (i : Nat) => namebuf page_number ((i : Int) + 1))

/-- No library step fails for a page: it loads, the page-level calls return,
and every image is rasterized and saved. -/
def pageOk (doc : Document) (page_number : Int) : Bool :=
  match doc.load_page (page_number - 1) with
  | LoadResult.loaded pg => pg.stepsOk && blocksOk pg.blocks
  | _ => false

/-- The number of image blocks of a page (zero when it does not load). -/
def pageImages (doc : Document) (page_number : Int) : Nat :=
  match doc.load_page (page_number - 1) with
  | LoadResult.loaded pg => imageCount pg.blocks
  | _ => 0

/-- The page counter of a pair's run stays inside `int`: an ascending run
ends below `INT_MAX` and a descending run ends above `INT_MIN`, so that the
step after the last page does not overflow. -/
def pairInInt (pr : Int × Int) : Bool :=
  if pr.1 ≤ pr.2 then decide (pr.2 < INT_MAX) else decide (INT_MIN < pr.2)

/-- Every pair's run stays inside `int`. -/
def pairsInInt (pairs : List (Int × Int)) : Bool :=
  pairs.all pairInInt

/-- The range expression the spec selects: the literal `1-N` when no
positional argument follows the file name (`i` is the index after it) or the
next one is not recognised as a page range, and that argument otherwise. -/
def selectedRange (lib : Fitz) (argv : List CStr) (i : Nat) : CStr :=
  if i = argv.length ∨ lib.fz_is_page_range (argv.getD i []) = false then "1-N".toList
  else argv.getD i []

/-- A decimal digit character. -/
def isDigit (c : Char) : Bool :=
  decide (c ∈ ['0', '1', '2', '3', '4', '5', '6', '7', '8', '9'])

/-- The value of a digit character. -/
def digitVal (c : Char) : Nat := c.toNat - 48

/-- The value of a string of decimal digits, most significant first. -/
def decValue (s : CStr) : Nat :=
  s.foldl (fun acc c => 10 * acc + digitVal c) 0

/-- The value of a list of decimal digits, least significant first. -/
def decValueRev : List Char → Nat
  | [] => 0
  | c :: cs => digitVal c + 10 * decValueRev cs

/-- The name format as the spec words it: `page-`, then exactly three
decimal digits whose value is `p`, then `-img-`, then exactly four decimal
digits whose value is `i`. -/
def NameFormat (name : CStr) (p i : Int) : Prop :=
  ∃ d3 d4 : CStr, name = "page-".toList ++ d3 ++ "-img-".toList ++ d4 ∧
    d3.length = 3 ∧ d4.length = 4 ∧
    (∀ c ∈ d3, isDigit c = true) ∧ (∀ c ∈ d4, isDigit c = true) ∧
    (decValue d3 : Int) = p ∧ (decValue d4 : Int) = i

/-! ## Sample inputs -/

/-- A page on which every page-level call returns, with the given blocks. -/
def goodPage (blocks : List Block) : PageScript :=
  ⟨true, true, true, true, true, blocks⟩

/-- A ten-page document without password: page 2 has three images between
other blocks, page 4 fails during interpretation, page 5 has one image,
page 7 has three images of which the second cannot be saved; the other pages
have no image. -/
def sampleDoc : Document where
  needs_password := false
  authenticate_password := fun _ => true
  count_pages := 10
  load_page := fun i =>
    if i = 1 then
      LoadResult.loaded (goodPage [Block.image true true, Block.other, Block.image true true,
        Block.image true true, Block.other])
    else if i = 3 then LoadResult.loaded ⟨true, true, true, false, true, []⟩
    else if i = 4 then LoadResult.loaded (goodPage [Block.image true true])
    else if i = 6 then
      LoadResult.loaded (goodPage [Block.image true true, Block.image true false,
        Block.image true true])
    else if 0 ≤ i ∧ i < 10 then LoadResult.loaded (goodPage [Block.other])
    else LoadResult.throws

/-- A ten-page document on which a different library step fails on each of
the pages 1 to 9: the load throws, the load returns `NULL`, the bounds, the
structured page, the device, the interpretation, the close, the
rasterization and the save; each of these pages has one image.  Page 10 has
one image and no failure. -/
def brokenDoc : Document where
  needs_password := false
  authenticate_password := fun _ => true
  count_pages := 10
  load_page := fun i =>
    if i = 0 then LoadResult.throws
    else if i = 1 then LoadResult.null
    else if i = 2 then LoadResult.loaded ⟨false, true, true, true, true, [Block.image true true]⟩
    else if i = 3 then LoadResult.loaded ⟨true, false, true, true, true, [Block.image true true]⟩
    else if i = 4 then LoadResult.loaded ⟨true, true, false, true, true, [Block.image true true]⟩
    else if i = 5 then LoadResult.loaded ⟨true, true, true, false, true, [Block.image true true]⟩
    else if i = 6 then LoadResult.loaded ⟨true, true, true, true, false, [Block.image true true]⟩
    else if i = 7 then LoadResult.loaded (goodPage [Block.image false true])
    else if i = 8 then LoadResult.loaded (goodPage [Block.image true false])
    else if i = 9 then LoadResult.loaded (goodPage [Block.image true true])
    else LoadResult.throws

/-- A document with its failing pages repaired: every page on which a library
step fails is replaced by a page without blocks on which none fails; the
other pages are unchanged. -/
def repairedDoc (doc : Document) : Document where
  needs_password := doc.needs_password
  authenticate_password := doc.authenticate_password
  count_pages := doc.count_pages
  load_page := fun i =>
    if pageOk doc (i + 1) = true then doc.load_page i else LoadResult.loaded (goodPage [])

/-- A password-protected variant of `sampleDoc`; the password is `pw`. -/
def lockedDoc : Document where
  needs_password := true
  authenticate_password := fun p => decide (p = "pw".toList)
  count_pages := 10
  load_page := sampleDoc.load_page

/-- A document of `INT_MAX` pages none of which loads. -/
def hugeDoc : Document where
  needs_password := false
  authenticate_password := fun _ => true
  count_pages := INT_MAX
  load_page := fun _ => LoadResult.throws

/-- A library whose parser yields the given pairs for every expression, that
recognises exactly the expressions made of digits, `N`, `-` and `,`, and that
opens `sampleDoc` for `a.pdf`, `lockedDoc` for `locked.pdf`, `brokenDoc` for
`broken.pdf`, and nothing else. -/
def sampleLib (pairs : List (Int × Int)) : Fitz where
  fz_parse_page_range := fun _ _ => pairs
  fz_is_page_range := fun s => s.all (fun c => isDigit c || c = 'N' || c = '-' || c = ',')
  fz_new_context := true
  fz_mkdir := fun _ => true
  fz_open_document := fun f =>
    if f = "a.pdf".toList then some sampleDoc
    else if f = "locked.pdf".toList then some lockedDoc
    else if f = "broken.pdf".toList then some brokenDoc
    else none


/-! ## Reading a trace: appends -/

theorem extractCalls_append (a b : List Event) :
    extractCalls (a ++ b) = extractCalls a ++ extractCalls b := by
  induction a with
  | nil => rfl
  | cons e t ih => cases e <;> simp [extractCalls, ih]

theorem rangeCalls_append (a b : List Event) :
    rangeCalls (a ++ b) = rangeCalls a ++ rangeCalls b := by
  induction a with
  | nil => rfl
  | cons e t ih => cases e <;> simp [rangeCalls, ih]

theorem printed_append (a b : List Event) :
    printed (a ++ b) = printed a ++ printed b := by
  induction a with
  | nil => rfl
  | cons e t ih => cases e <;> simp [printed, ih]

theorem saved_append (a b : List Event) :
    saved (a ++ b) = saved a ++ saved b := by
  induction a with
  | nil => rfl
  | cons e t ih => cases e <;> simp [saved, ih]

theorem warnings_append (a b : List Event) :
    warnings (a ++ b) = warnings a ++ warnings b := by
  induction a with
  | nil => rfl
  | cons e t ih => cases e <;> simp [warnings, ih]

theorem acquired_append (a b : List Event) :
    acquired (a ++ b) = acquired a ++ acquired b := by
  induction a with
  | nil => rfl
  | cons e t ih => cases e <;> simp [acquired, ih]

theorem dropped_append (a b : List Event) :
    dropped (a ++ b) = dropped a ++ dropped b := by
  induction a with
  | nil => rfl
  | cons e t ih => cases e <;> simp [dropped, ih]

/-- A reader that distributes over append distributes over `flatMap`. -/
theorem reader_flatMap {β : Type} (r : List Event → List β) (h0 : r [] = [])
    (happ : ∀ a b, r (a ++ b) = r a ++ r b) (f : Int → List Event) (l : List Int) :
    r (l.flatMap f) = l.flatMap (fun p => r (f p)) := by
  induction l with
  | nil => simpa using h0
  | cons x t ih => simp [List.flatMap_cons, happ, ih]

/-! ## The loops of `extract_range` -/

/-- The ascending loop obeys the equation of the `for` statement (with the
overflow of `page++` at `INT_MAX`): the bound on the number of loop tests
never cuts it short. -/
theorem forUp_step (doc : Document) (outdir : CStr) (spage epage : Int) :
    forUp doc outdir spage epage =
      if spage ≤ epage then
        if spage = INT_MAX then none
        else
          (forUp doc outdir (spage + 1) epage).map
            (fun rest => extract_page_images doc spage outdir ++ rest)
      else some [] := by
  unfold forUp
  by_cases h : spage ≤ epage
  · obtain ⟨n, hn⟩ : ∃ n, (epage + 1 - spage).toNat = n + 1 :=
      ⟨(epage - spage).toNat, by omega⟩
    have hn2 : (epage + 1 - (spage + 1)).toNat = n := by omega
    rw [hn, hn2, if_pos h]
    simp [forUpLoop, h]
  · have hn : (epage + 1 - spage).toNat = 0 := by omega
    rw [hn, if_neg h]
    simp [forUpLoop, h]

/-- The descending loop obeys the equation of the `for` statement (with the
overflow of `page--` at `INT_MIN`). -/
theorem forDown_step (doc : Document) (outdir : CStr) (spage epage : Int) :
    forDown doc outdir spage epage =
      if spage ≥ epage then
        if spage = INT_MIN then none
        else
          (forDown doc outdir (spage - 1) epage).map
            (fun rest => extract_page_images doc spage outdir ++ rest)
      else some [] := by
  unfold forDown
  by_cases h : spage ≥ epage
  · obtain ⟨n, hn⟩ : ∃ n, (spage + 1 - epage).toNat = n + 1 :=
      ⟨(spage - epage).toNat, by omega⟩
    have hn2 : (spage - 1 + 1 - epage).toNat = n := by omega
    rw [hn, hn2, if_pos h]
    simp [forDownLoop, h]
  · have hn : (spage + 1 - epage).toNat = 0 := by omega
    rw [hn, if_neg h]
    simp [forDownLoop, h]

theorem forUpLoop_eq (doc : Document) (outdir : CStr) (epage : Int) (hmax : epage < INT_MAX) :
    ∀ (n : Nat) (page : Int), (epage + 1 - page).toNat = n →
      forUpLoop doc outdir epage (n + 1) page =
        some (((List.range n).map (fun (k : Nat) => page + (k : Int))).flatMap
          (fun p => extract_page_images doc p outdir)) := by
  intro n
  induction n with
  | zero =>
    intro page h
    have hgt : ¬ page ≤ epage := by omega
    simp [forUpLoop, hgt]
  | succ n ih =>
    intro page h
    have hle : page ≤ epage := by omega
    have hne : ¬ page = INT_MAX := by omega
    have h2 : (epage + 1 - (page + 1)).toNat = n := by omega
    rw [forUpLoop, if_pos hle, if_neg hne, ih (page + 1) h2, List.range_succ_eq_map]
    simp only [List.map_cons, List.map_map, List.flatMap_cons, Nat.cast_zero, add_zero,
      Option.map_some']
    congr 3
    apply List.map_congr_left
    intro k _
    simp only [Function.comp_apply, Nat.succ_eq_add_one]
    push_cast
    ring

theorem forDownLoop_eq (doc : Document) (outdir : CStr) (epage : Int) (hmin : INT_MIN < epage) :
    ∀ (n : Nat) (page : Int), (page + 1 - epage).toNat = n →
      forDownLoop doc outdir epage (n + 1) page =
        some (((List.range n).map (fun (k : Nat) => page - (k : Int))).flatMap
          (fun p => extract_page_images doc p outdir)) := by
  intro n
  induction n with
  | zero =>
    intro page h
    have hgt : ¬ page ≥ epage := by omega
    simp [forDownLoop, hgt]
  | succ n ih =>
    intro page h
    have hle : page ≥ epage := by omega
    have hne : ¬ page = INT_MIN := by omega
    have h2 : (page - 1 + 1 - epage).toNat = n := by omega
    rw [forDownLoop, if_pos hle, if_neg hne, ih (page - 1) h2, List.range_succ_eq_map]
    simp only [List.map_cons, List.map_map, List.flatMap_cons, Nat.cast_zero, sub_zero,
      Option.map_some']
    congr 3
    apply List.map_congr_left
    intro k _
    simp only [Function.comp_apply, Nat.succ_eq_add_one]
    push_cast
    ring

/-- The events of the `while` loop over pairs whose runs stay inside `int`
are the per-page events of the pages of the runs, in order. -/
theorem pairsLoop_eq (doc : Document) (outdir : CStr) (pairs : List (Int × Int))
    (hint : pairsInInt pairs = true) :
    pairsLoop doc outdir pairs =
      some ((specPages pairs).flatMap (fun p => extract_page_images doc p outdir)) := by
  induction pairs with
  | nil => rfl
  | cons pr rest ih =>
    obtain ⟨spage, epage⟩ := pr
    simp only [pairsInInt, List.all_cons, Bool.and_eq_true] at hint
    have hrest : pairsInInt rest = true := hint.2
    have hpr := hint.1
    simp only [pairInInt] at hpr
    rw [pairsLoop, ih hrest, specPages, List.flatMap_append]
    unfold specRun
    by_cases h : spage ≤ epage
    · rw [if_pos h] at hpr
      have hmax : epage < INT_MAX := by simpa using hpr
      rw [if_pos h, if_pos h, forUp, forUpLoop_eq doc outdir epage hmax _ spage rfl]
      have : (epage + 1 - spage).toNat = (epage - spage + 1).toNat := by omega
      rw [this]
      rfl
    · rw [if_neg h] at hpr
      have hmin : INT_MIN < epage := by simpa using hpr
      rw [if_neg h, if_neg h, forDown, forDownLoop_eq doc outdir epage hmin _ spage rfl]
      have : (spage + 1 - epage).toNat = (spage - epage + 1).toNat := by omega
      rw [this]
      rfl

theorem extract_range_eq (lib : Fitz) (doc : Document) (range outdir : CStr)
    (hint : pairsInInt (lib.fz_parse_page_range range doc.count_pages) = true) :
    extract_range lib doc range outdir =
      some (Event.range range ::
        (specPages (lib.fz_parse_page_range range doc.count_pages)).flatMap
          (fun p => extract_page_images doc p outdir)) := by
  simp [extract_range, pairsLoop_eq doc outdir _ hint]

/-! ## One page -/

theorem blockLoop_printed (page_number : Int) (outdir : CStr) :
    ∀ (blocks : List Block) (img_index : Int),
      printed (blockLoop page_number outdir blocks img_index).2 =
        (List.range (imagesBeforeFailure blocks)).map
          (fun (k : Nat) => namebuf page_number ((k : Int) + img_index)) := by
  intro blocks
  induction blocks with
  | nil => intro _; rfl
  | cons b rest ih =>
    intro img_index
    cases b with
    | other => simpa [blockLoop, imagesBeforeFailure] using ih img_index
    | image g s =>
      cases g <;> cases s <;>
        simp [blockLoop, imagesBeforeFailure, printed, ih, List.range_succ_eq_map]
      intro k _
      congr 1
      ring

theorem blockLoop_saved (page_number : Int) (outdir : CStr) :
    ∀ (blocks : List Block) (img_index : Int),
      saved (blockLoop page_number outdir blocks img_index).2 =
        (List.range (imagesBeforeFailure blocks)).map
          (fun (k : Nat) => pathbuf outdir (namebuf page_number ((k : Int) + img_index))) := by
  intro blocks
  induction blocks with
  | nil => intro _; rfl
  | cons b rest ih =>
    intro img_index
    cases b with
    | other => simpa [blockLoop, imagesBeforeFailure] using ih img_index
    | image g s =>
      cases g <;> cases s <;>
        simp [blockLoop, imagesBeforeFailure, saved, ih, List.range_succ_eq_map]
      intro k _
      congr 2
      ring

theorem blockLoop_flow (page_number : Int) (outdir : CStr) :
    ∀ (blocks : List Block) (img_index : Int),
      (blockLoop page_number outdir blocks img_index).1 =
        if blocksOk blocks then Flow.normal else Flow.thrown := by
  intro blocks
  induction blocks with
  | nil => intro _; rfl
  | cons b rest ih =>
    intro img_index
    cases b with
    | other => simpa [blockLoop, blocksOk] using ih img_index
    | image g s => cases g <;> cases s <;> simp [blockLoop, blocksOk, ih]

theorem blockLoop_quiet (page_number : Int) (outdir : CStr) :
    ∀ (blocks : List Block) (img_index : Int),
      extractCalls (blockLoop page_number outdir blocks img_index).2 = [] ∧
      rangeCalls (blockLoop page_number outdir blocks img_index).2 = [] ∧
      warnings (blockLoop page_number outdir blocks img_index).2 = [] := by
  intro blocks
  induction blocks with
  | nil => intro _; exact ⟨rfl, rfl, rfl⟩
  | cons b rest ih =>
    intro img_index
    cases b with
    | other => simpa [blockLoop] using ih img_index
    | image g s =>
      cases g <;> cases s <;>
        simp [blockLoop, extractCalls, rangeCalls, warnings, ih]

theorem imagesBeforeFailure_of_ok :
    ∀ (blocks : List Block), blocksOk blocks = true →
      imagesBeforeFailure blocks = imageCount blocks := by
  intro blocks
  induction blocks with
  | nil => intro _; rfl
  | cons b rest ih =>
    cases b with
    | other => simpa [blocksOk, imagesBeforeFailure, imageCount] using ih
    | image g s =>
      intro h
      simp only [blocksOk, Bool.and_eq_true] at h
      simp [imagesBeforeFailure, imageCount, h.1.1, h.1.2, ih h.2]

/-- The `fz_try` block of a page that loads and whose page-level calls all
return is the block loop started at index 1. -/
theorem pageBody_of_steps (doc : Document) (page_number : Int) (outdir : CStr)
    (pg : PageScript) (hload : doc.load_page (page_number - 1) = LoadResult.loaded pg)
    (hsteps : pg.stepsOk = true) :
    pageBody doc page_number outdir =
      ((blockLoop page_number outdir pg.blocks 1).1, ⟨true, true, true⟩,
        [Event.acquire Res.page, Event.acquire Res.stext, Event.acquire Res.dev] ++
          (blockLoop page_number outdir pg.blocks 1).2) := by
  simp only [PageScript.stepsOk, Bool.and_eq_true] at hsteps
  obtain ⟨⟨⟨⟨h1, h2⟩, h3⟩, h4⟩, h5⟩ := hsteps
  simp [pageBody, hload, h1, h2, h3, h4, h5]

/-- A page that does not get through its page-level calls prints and saves
nothing and fails. -/
theorem pageBody_of_not_steps (doc : Document) (page_number : Int) (outdir : CStr)
    (h : ∀ pg, doc.load_page (page_number - 1) = LoadResult.loaded pg → pg.stepsOk = false) :
    (pageBody doc page_number outdir).1 = Flow.thrown ∧
    printed (pageBody doc page_number outdir).2.2 = [] ∧
    saved (pageBody doc page_number outdir).2.2 = [] := by
  unfold pageBody
  cases hl : doc.load_page (page_number - 1) with
  | throws => exact ⟨rfl, rfl, rfl⟩
  | null => exact ⟨rfl, rfl, rfl⟩
  | loaded pg =>
    have hs := h pg hl
    simp only [PageScript.stepsOk] at hs
    by_cases h1 : pg.bound_page = false
    · simp [h1, printed, saved]
    by_cases h2 : pg.new_stext_page = false
    · simp [h1, h2, printed, saved]
    by_cases h3 : pg.new_stext_device = false
    · simp [h1, h2, h3, printed, saved]
    by_cases h4 : pg.run_page = false
    · simp [h1, h2, h3, h4, printed, saved]
    by_cases h5 : pg.close_device = false
    · simp [h1, h2, h3, h4, h5, printed, saved]
    simp only [Bool.not_eq_false] at h1 h2 h3 h4 h5
    simp [h1, h2, h3, h4, h5] at hs

theorem pageAlways_quiet (l : Locals) :
    extractCalls (pageAlways l) = [] ∧ rangeCalls (pageAlways l) = [] ∧
    printed (pageAlways l) = [] ∧ saved (pageAlways l) = [] ∧
    warnings (pageAlways l) = [] := by
  obtain ⟨a, b, c⟩ := l
  cases a <;> cases b <;> cases c <;> exact ⟨rfl, rfl, rfl, rfl, rfl⟩

theorem pageCatch_quiet (page_number : Int) (f : Flow) :
    extractCalls (pageCatch page_number f) = [] ∧ rangeCalls (pageCatch page_number f) = [] ∧
    printed (pageCatch page_number f) = [] ∧ saved (pageCatch page_number f) = [] := by
  cases f <;> exact ⟨rfl, rfl, rfl, rfl⟩

theorem pageBody_quiet (doc : Document) (page_number : Int) (outdir : CStr) :
    extractCalls (pageBody doc page_number outdir).2.2 = [] ∧
    rangeCalls (pageBody doc page_number outdir).2.2 = [] ∧
    warnings (pageBody doc page_number outdir).2.2 = [] := by
  unfold pageBody
  cases hl : doc.load_page (page_number - 1) with
  | throws => exact ⟨rfl, rfl, rfl⟩
  | null => exact ⟨rfl, rfl, rfl⟩
  | loaded pg =>
    have hq := blockLoop_quiet page_number outdir pg.blocks 1
    by_cases h1 : pg.bound_page = false
    · simp [h1, extractCalls, rangeCalls, warnings]
    by_cases h2 : pg.new_stext_page = false
    · simp [h1, h2, extractCalls, rangeCalls, warnings]
    by_cases h3 : pg.new_stext_device = false
    · simp [h1, h2, h3, extractCalls, rangeCalls, warnings]
    by_cases h4 : pg.run_page = false
    · simp [h1, h2, h3, h4, extractCalls, rangeCalls, warnings]
    by_cases h5 : pg.close_device = false
    · simp [h1, h2, h3, h4, h5, extractCalls, rangeCalls, warnings]
    simp [h1, h2, h3, h4, h5, extractCalls, rangeCalls, warnings, hq]

/-- One call of the extractor is one `extract` mark, for its page. -/
theorem extractCalls_page (doc : Document) (page_number : Int) (outdir : CStr) :
    extractCalls (extract_page_images doc page_number outdir) = [page_number] := by
  have hb := pageBody_quiet doc page_number outdir
  have ha := pageAlways_quiet (pageBody doc page_number outdir).2.1
  have hc := pageCatch_quiet page_number (pageBody doc page_number outdir).1
  simp [extract_page_images, extractCalls, extractCalls_append, hb.1, ha.1, hc.1]

theorem rangeCalls_page (doc : Document) (page_number : Int) (outdir : CStr) :
    rangeCalls (extract_page_images doc page_number outdir) = [] := by
  have hb := pageBody_quiet doc page_number outdir
  have ha := pageAlways_quiet (pageBody doc page_number outdir).2.1
  have hc := pageCatch_quiet page_number (pageBody doc page_number outdir).1
  simp [extract_page_images, rangeCalls, rangeCalls_append, hb.2.1, ha.2.1, hc.2.1]

/-- The names a page call prints are the names its `fz_try` block prints. -/
theorem printed_page (doc : Document) (page_number : Int) (outdir : CStr) :
    printed (extract_page_images doc page_number outdir) =
      printed (pageBody doc page_number outdir).2.2 := by
  have ha := pageAlways_quiet (pageBody doc page_number outdir).2.1
  have hc := pageCatch_quiet page_number (pageBody doc page_number outdir).1
  simp [extract_page_images, printed, printed_append, ha.2.2.1, hc.2.2.1]

theorem saved_page (doc : Document) (page_number : Int) (outdir : CStr) :
    saved (extract_page_images doc page_number outdir) =
      saved (pageBody doc page_number outdir).2.2 := by
  have ha := pageAlways_quiet (pageBody doc page_number outdir).2.1
  have hc := pageCatch_quiet page_number (pageBody doc page_number outdir).1
  simp [extract_page_images, saved, saved_append, ha.2.2.2.1, hc.2.2.2]

theorem pageOk_of_loaded (doc : Document) (page_number : Int) (pg : PageScript)
    (hload : doc.load_page (page_number - 1) = LoadResult.loaded pg) :
    pageOk doc page_number = (pg.stepsOk && blocksOk pg.blocks) := by
  simp only [pageOk, hload]

/-- The `fz_try` block of a page is left by a throw exactly when a library
step fails for the page: the load throws or returns `NULL`, a page-level call
throws, or the rasterization or the save of an image throws. -/
theorem pageBody_flow (doc : Document) (page_number : Int) (outdir : CStr) :
    (pageBody doc page_number outdir).1 =
      if pageOk doc page_number = true then Flow.normal else Flow.thrown := by
  cases hl : doc.load_page (page_number - 1) with
  | throws => simp [pageBody, pageOk, hl]
  | null => simp [pageBody, pageOk, hl]
  | loaded pg =>
    by_cases hs : pg.stepsOk = true
    · rw [pageBody_of_steps doc page_number outdir pg hl hs, pageOk_of_loaded doc page_number pg hl,
        hs]
      simp only [blockLoop_flow, Bool.true_and]
    · have hn : ∀ pg2, doc.load_page (page_number - 1) = LoadResult.loaded pg2 →
          pg2.stepsOk = false := by
        intro pg2 hl2
        rw [hl] at hl2
        cases hl2
        simpa using hs
      rw [(pageBody_of_not_steps doc page_number outdir hn).1,
        pageOk_of_loaded doc page_number pg hl]
      simp [hs]

/-- A page call warns exactly when a library step fails for the page, once,
naming the page. -/
theorem warnings_page (doc : Document) (page_number : Int) (outdir : CStr) :
    warnings (extract_page_images doc page_number outdir) =
      if pageOk doc page_number = true then [] else [page_number] := by
  have hb := pageBody_quiet doc page_number outdir
  have ha := pageAlways_quiet (pageBody doc page_number outdir).2.1
  simp only [extract_page_images, warnings, warnings_append, hb.2.2, ha.2.2.2.2,
    List.nil_append, pageBody_flow]
  by_cases h : pageOk doc page_number = true
  · simp [h, pageCatch, warnings]
  · simp [h, pageCatch, warnings]

/-- The names of a page that gets through its page-level calls. -/
theorem printed_page_of_steps (doc : Document) (page_number : Int) (outdir : CStr)
    (pg : PageScript) (hload : doc.load_page (page_number - 1) = LoadResult.loaded pg)
    (hsteps : pg.stepsOk = true) :
    printed (extract_page_images doc page_number outdir) =
      pageNames page_number (imagesBeforeFailure pg.blocks) := by
  rw [printed_page, pageBody_of_steps doc page_number outdir pg hload hsteps]
  simp [printed, printed_append, blockLoop_printed, pageNames]

theorem saved_page_of_steps (doc : Document) (page_number : Int) (outdir : CStr)
    (pg : PageScript) (hload : doc.load_page (page_number - 1) = LoadResult.loaded pg)
    (hsteps : pg.stepsOk = true) :
    saved (extract_page_images doc page_number outdir) =
      (pageNames page_number (imagesBeforeFailure pg.blocks)).map (pathbuf outdir) := by
  rw [saved_page, pageBody_of_steps doc page_number outdir pg hload hsteps]
  simp [saved, saved_append, blockLoop_saved, pageNames]


/-! ## The runs of the specification -/

theorem specRun_length (start stop : Int) :
    (specRun start stop).length = (start - stop).natAbs + 1 := by
  unfold specRun
  split <;> simp <;> omega

theorem specRun_mem (start stop p : Int) :
    p ∈ specRun start stop ↔ (start ≤ p ∧ p ≤ stop) ∨ (stop < start ∧ stop ≤ p ∧ p ≤ start) := by
  unfold specRun
  split
  · simp only [List.mem_map, List.mem_range]
    constructor
    · rintro ⟨k, hk, rfl⟩
      left; omega
    · rintro (h | h)
      · exact ⟨(p - start).toNat, by omega, by omega⟩
      · omega
  · simp only [List.mem_map, List.mem_range]
    constructor
    · rintro ⟨k, hk, rfl⟩
      right; omega
    · rintro (h | h)
      · omega
      · exact ⟨(start - p).toNat, by omega, by omega⟩

theorem specRun_ascending (start stop : Int) (h : start ≤ stop) :
    List.Pairwise (fun a b => a < b) (specRun start stop) := by
  unfold specRun
  rw [if_pos h]
  refine List.Pairwise.map _ ?_ (List.pairwise_lt_range _)
  intro a b hab
  omega

theorem specRun_descending (start stop : Int) (h : ¬ start ≤ stop) :
    List.Pairwise (fun a b => b < a) (specRun start stop) := by
  unfold specRun
  rw [if_neg h]
  refine List.Pairwise.map _ ?_ (List.pairwise_lt_range _)
  intro a b hab
  omega

theorem specRun_nodup (start stop : Int) : (specRun start stop).Nodup := by
  by_cases h : start ≤ stop
  · exact (specRun_ascending start stop h).imp (fun hab => ne_of_lt hab)
  · exact (specRun_descending start stop h).imp (fun hab => ne_of_gt hab)

theorem extractCalls_pages (doc : Document) (outdir : CStr) (pages : List Int) :
    extractCalls (pages.flatMap (fun p => extract_page_images doc p outdir)) = pages := by
  rw [reader_flatMap extractCalls rfl extractCalls_append]
  induction pages with
  | nil => rfl
  | cons p t ih => simp [List.flatMap_cons, extractCalls_page, ih]

/-- The `k`-th page of a run is `k` steps from `start`, towards `stop`. -/
theorem specRun_get (start stop : Int) (k : Nat) (hk : k < (start - stop).natAbs + 1) :
    (specRun start stop)[k]? = some (if start ≤ stop then start + (k : Int) else start - (k : Int)) := by
  unfold specRun
  split
  · rw [List.getElem?_map, List.getElem?_range (by omega)]
    rfl
  · rw [List.getElem?_map, List.getElem?_range (by omega)]
    rfl

/-! ## C1 -/

theorem specPages_append (a b : List (Int × Int)) :
    specPages (a ++ b) = specPages a ++ specPages b := by
  induction a with
  | nil => rfl
  | cons x t ih =>
    obtain ⟨s, e⟩ := x
    simp [specPages, ih]

theorem pairsInInt_append (a b : List (Int × Int)) :
    pairsInInt (a ++ b) = (pairsInInt a && pairsInInt b) := by
  simp [pairsInInt, List.all_append]

/-- C1 (as stated, refuted): on a document of `INT_MAX` pages the expression
`2147483646-N` yields the pair (2147483646, 2147483647).  After the call for
page 2147483647 the step `page++` overflows the `int` counter, and the test
`page <= epage` cannot fail: the run has no defined result, so the calls are
not exactly those for the pages 2147483646 and 2147483647. -/
theorem C1_extract_range_counterexample :
    extract_range (sampleLib [(2147483646, 2147483647)]) hugeDoc "2147483646-N".toList
      ".".toList = none ∧
    (extract_range (sampleLib [(2147483646, 2147483647)]) hugeDoc "2147483646-N".toList
      ".".toList).map extractCalls ≠ some [2147483646, 2147483647] := by
  decide

/-- C1 (amended): for pairs whose runs stay inside `int` (an ascending run
ends below `INT_MAX`, a descending run above `INT_MIN`), `extract_range`
returns and calls the page extractor on the pages of each pair's run, in
order: for every expression the calls are the concatenation of the runs of
the pairs the parser yields, and the events of a sequence of pairs are those
of its parts, concatenated; the run of a pair has `|start-end|+1` pages
without repetition, its `k`-th page is `start+k` when `start <= end` and
`start-k` otherwise, and it covers exactly the pages between the two bounds.
Pairs (1,1),(3,4) visit 1,3,4 and pair (5,3) visits 5,4,3. -/
theorem C1_extract_range_visits_runs_amended :
    (∀ (lib : Fitz) (doc : Document) (range outdir : CStr),
      pairsInInt (lib.fz_parse_page_range range doc.count_pages) = true →
      (extract_range lib doc range outdir).map extractCalls =
        some (specPages (lib.fz_parse_page_range range doc.count_pages))) ∧
    (∀ (doc : Document) (outdir : CStr) (spage epage : Int),
      pairInInt (spage, epage) = true →
      ∃ calls : List Int,
        (pairsLoop doc outdir [(spage, epage)]).map extractCalls = some calls ∧
        calls = specRun spage epage ∧
        calls.length = (spage - epage).natAbs + 1 ∧
        calls.Nodup ∧
        (∀ k : Nat, k < (spage - epage).natAbs + 1 →
          calls[k]? = some (if spage ≤ epage then spage + (k : Int) else spage - (k : Int))) ∧
        (∀ p : Int, p ∈ calls ↔
          (spage ≤ p ∧ p ≤ epage) ∨ (epage < spage ∧ epage ≤ p ∧ p ≤ spage))) ∧
    (∀ (doc : Document) (outdir : CStr) (pairs rest : List (Int × Int)),
      pairsInInt (pairs ++ rest) = true →
      ∃ a b : List Event,
        pairsLoop doc outdir pairs = some a ∧ pairsLoop doc outdir rest = some b ∧
        pairsLoop doc outdir (pairs ++ rest) = some (a ++ b) ∧
        extractCalls (a ++ b) = extractCalls a ++ extractCalls b) ∧
    (extract_range (sampleLib [(1, 1), (3, 4)]) sampleDoc "1,3-4".toList ".".toList).map
      extractCalls = some [1, 3, 4] ∧
    (extract_range (sampleLib [(5, 3)]) sampleDoc "5-3".toList ".".toList).map
      extractCalls = some [5, 4, 3] := by
  refine ⟨?_, ?_, ?_, by decide, by decide⟩
  · intro lib doc range outdir hint
    rw [extract_range_eq lib doc range outdir hint]
    simp [extractCalls, extractCalls_pages]
  · intro doc outdir spage epage hint
    have hint2 : pairsInInt [(spage, epage)] = true := by
      simpa [pairsInInt] using hint
    refine ⟨specRun spage epage, ?_, rfl, specRun_length spage epage, specRun_nodup spage epage,
      fun k hk => specRun_get spage epage k hk, fun p => specRun_mem spage epage p⟩
    rw [pairsLoop_eq doc outdir _ hint2, Option.map_some', extractCalls_pages]
    simp [specPages]
  · intro doc outdir pairs rest hint
    rw [pairsInInt_append, Bool.and_eq_true] at hint
    refine ⟨_, _, pairsLoop_eq doc outdir pairs hint.1, pairsLoop_eq doc outdir rest hint.2, ?_,
      extractCalls_append _ _⟩
    rw [pairsLoop_eq doc outdir (pairs ++ rest)
      (by rw [pairsInInt_append, hint.1, hint.2]; rfl), specPages_append, List.flatMap_append]

/-- Witness for C1 (amended): the third page visited for the pair (5,3) is
page 3, and the expression `1,3-4` visits pages 1, 3, 4. -/
theorem C1_extract_range_visits_runs_amended_witness :
    (∃ calls : List Int,
      (pairsLoop sampleDoc ".".toList [(5, 3)]).map extractCalls = some calls ∧
      calls[2]? = some 3 ∧ calls.length = 3) ∧
    (extract_range (sampleLib [(1, 1), (3, 4)]) sampleDoc "1,3-4".toList ".".toList).map
      extractCalls = some (specPages [(1, 1), (3, 4)]) := by
  obtain ⟨calls, h1, -, h3, -, h5, -⟩ :=
    C1_extract_range_visits_runs_amended.2.1 sampleDoc ".".toList 5 3 (by decide)
  exact ⟨⟨calls, h1, h5 2 (by decide), h3⟩,
    C1_extract_range_visits_runs_amended.1 (sampleLib [(1, 1), (3, 4)]) sampleDoc
      "1,3-4".toList ".".toList (by decide)⟩

/-! ## C2, C9: the names of a page -/

theorem pageNames_length (page_number : Int) (k : Nat) :
    (pageNames page_number k).length = k := by
  simp [pageNames]

theorem pageNames_get (page_number : Int) (k i : Nat) (hi : i < k) :
    (pageNames page_number k)[i]? = some (namebuf page_number ((i : Int) + 1)) := by
  unfold pageNames
  rw [List.getElem?_map, List.getElem?_range hi]
  rfl

theorem blocksOk_append (pre post : List Block) :
    blocksOk (pre ++ post) = (blocksOk pre && blocksOk post) := by
  induction pre with
  | nil => rfl
  | cons b t ih =>
    cases b with
    | other => simpa [blocksOk] using ih
    | image g s => simp [blocksOk, ih, Bool.and_assoc]

/-- With the first failing image after the blocks `pre`, the images before
the failure are the images of `pre`. -/
theorem imagesBeforeFailure_split (pre post : List Block) (g s : Bool)
    (hpre : blocksOk pre = true) (hfail : g = false ∨ s = false) :
    imagesBeforeFailure (pre ++ Block.image g s :: post) = imageCount pre := by
  induction pre with
  | nil =>
    rcases hfail with h | h <;> simp [imagesBeforeFailure, imageCount, h]
  | cons b t ih =>
    cases b with
    | other => simpa [imagesBeforeFailure, imageCount] using ih (by simpa [blocksOk] using hpre)
    | image g2 s2 =>
      simp only [blocksOk, Bool.and_eq_true] at hpre
      simp [imagesBeforeFailure, imageCount, hpre.1.1, hpre.1.2, ih hpre.2]

theorem pageOk_loaded (doc : Document) (page_number : Int) (h : pageOk doc page_number = true) :
    ∃ pg, doc.load_page (page_number - 1) = LoadResult.loaded pg ∧ pg.stepsOk = true ∧
      blocksOk pg.blocks = true := by
  unfold pageOk at h
  cases hl : doc.load_page (page_number - 1) with
  | throws => simp [hl] at h
  | null => simp [hl] at h
  | loaded pg =>
    simp only [hl, Bool.and_eq_true] at h
    exact ⟨pg, rfl, h.1, h.2⟩

theorem printed_page_of_ok (doc : Document) (page_number : Int) (outdir : CStr)
    (h : pageOk doc page_number = true) :
    printed (extract_page_images doc page_number outdir) =
      pageNames page_number (pageImages doc page_number) := by
  obtain ⟨pg, hl, hs, hb⟩ := pageOk_loaded doc page_number h
  rw [printed_page_of_steps doc page_number outdir pg hl hs, imagesBeforeFailure_of_ok _ hb]
  simp [pageImages, hl]

/-- On every page the files saved are those of the names printed. -/
theorem saved_eq_map_printed (doc : Document) (p : Int) (outdir : CStr) :
    saved (extract_page_images doc p outdir) =
      (printed (extract_page_images doc p outdir)).map (pathbuf outdir) := by
  by_cases hs : ∃ pg, doc.load_page (p - 1) = LoadResult.loaded pg ∧ pg.stepsOk = true
  · obtain ⟨pg, hl, hst⟩ := hs
    rw [saved_page_of_steps doc p outdir pg hl hst, printed_page_of_steps doc p outdir pg hl hst]
  · have hn : ∀ pg, doc.load_page (p - 1) = LoadResult.loaded pg → pg.stepsOk = false := by
      intro pg hl
      by_contra hc
      exact hs ⟨pg, hl, by simpa using hc⟩
    have h := pageBody_of_not_steps doc p outdir hn
    rw [saved_page, printed_page, h.2.1, h.2.2]
    rfl

/-- C2: when no library step fails, a page with `k` image blocks among any
other blocks emits exactly `k` names, the `i`-th being the name of
`(p, i)`, `i = 1..k`, and no warning (so `k = 0` emits nothing and is no
error); over a run in which no step fails (the runs of its pairs staying
inside `int`) the names are, page after page in visiting order, those of
indices `1..k` of each page: the counter restarts at 1 whatever was processed
before.  Page 2 with 3 images then page 5 with 1 image gives
page-002-img-0001, page-002-img-0002, page-002-img-0003,
page-005-img-0001. -/
theorem C2_names_count_from_one_on_every_page :
    (∀ (doc : Document) (p : Int) (outdir : CStr) (pg : PageScript),
      doc.load_page (p - 1) = LoadResult.loaded pg → pg.stepsOk = true →
      blocksOk pg.blocks = true →
        (printed (extract_page_images doc p outdir)).length = imageCount pg.blocks ∧
        (∀ i : Nat, i < imageCount pg.blocks →
          (printed (extract_page_images doc p outdir))[i]? = some (namebuf p ((i : Int) + 1))) ∧
        warnings (extract_page_images doc p outdir) = []) ∧
    (∀ (lib : Fitz) (doc : Document) (range outdir : CStr),
      pairsInInt (lib.fz_parse_page_range range doc.count_pages) = true →
      (∀ p ∈ specPages (lib.fz_parse_page_range range doc.count_pages), pageOk doc p = true) →
        (extract_range lib doc range outdir).map printed =
          some ((specPages (lib.fz_parse_page_range range doc.count_pages)).flatMap
            (fun p => pageNames p (pageImages doc p)))) ∧
    (extract_range (sampleLib [(2, 2), (5, 5)]) sampleDoc "2,5".toList ".".toList).map printed =
      some ["page-002-img-0001".toList, "page-002-img-0002".toList, "page-002-img-0003".toList,
        "page-005-img-0001".toList] := by
  refine ⟨?_, ?_, by decide⟩
  · intro doc p outdir pg hl hs hb
    have hp := printed_page_of_steps doc p outdir pg hl hs
    rw [imagesBeforeFailure_of_ok _ hb] at hp
    refine ⟨by rw [hp, pageNames_length], ?_, ?_⟩
    · intro i hi
      rw [hp, pageNames_get p _ i hi]
    · rw [warnings_page, pageOk_of_loaded doc p pg hl, hs, hb]
      rfl
  · intro lib doc range outdir hint hok
    rw [extract_range_eq lib doc range outdir hint, Option.map_some']
    congr 1
    refine Eq.trans (reader_flatMap printed rfl printed_append _ _) ?_
    apply List.flatMap_congr
    intro p hp
    exact printed_page_of_ok doc p outdir (hok p hp)

/-- Witness for C2: page 2 of the sample document (three images among other
blocks) and the run over pages 2 and 5. -/
theorem C2_names_count_from_one_witness :
    (printed (extract_page_images sampleDoc 2 ".".toList)).length = 3 ∧
    (printed (extract_page_images sampleDoc 2 ".".toList))[2]? =
      some (namebuf 2 3) ∧
    (extract_range (sampleLib [(2, 2), (5, 5)]) sampleDoc "2,5".toList ".".toList).map printed =
      some ((specPages [(2, 2), (5, 5)]).flatMap
        (fun p => pageNames p (pageImages sampleDoc p))) := by
  have h := C2_names_count_from_one_on_every_page.1 sampleDoc 2 ".".toList
    (goodPage [Block.image true true, Block.other, Block.image true true,
        Block.image true true, Block.other]) (by decide) (by decide) (by decide)
  have h2 := C2_names_count_from_one_on_every_page.2.1 (sampleLib [(2, 2), (5, 5)]) sampleDoc
    "2,5".toList ".".toList (by decide) (by decide)
  exact ⟨h.1, h.2.1 2 (by decide), h2⟩

/-- C9: within one page that reaches the block loop, extraction stops at the
first failure: when the blocks before the first image whose rasterization or
save fails contain `m` images, exactly the names of indices `1..m` are
emitted and exactly their files are saved, nothing is emitted for the
failing image or any later block, and the page is warned about once; when no
image fails, every image's name is emitted.  On every page, failing or not,
the saved paths are those of the emitted names, one file per name. -/
theorem C9_names_stop_at_first_failure (doc : Document) (p : Int) (outdir : CStr) :
    saved (extract_page_images doc p outdir) =
      (printed (extract_page_images doc p outdir)).map (pathbuf outdir) ∧
    (printed (extract_page_images doc p outdir)).length =
      (saved (extract_page_images doc p outdir)).length ∧
    (∀ (pg : PageScript) (pre post : List Block) (get_pixmap save_png : Bool),
      doc.load_page (p - 1) = LoadResult.loaded pg → pg.stepsOk = true →
      pg.blocks = pre ++ Block.image get_pixmap save_png :: post →
      blocksOk pre = true → (get_pixmap = false ∨ save_png = false) →
        printed (extract_page_images doc p outdir) = pageNames p (imageCount pre) ∧
        saved (extract_page_images doc p outdir) =
          (pageNames p (imageCount pre)).map (pathbuf outdir) ∧
        warnings (extract_page_images doc p outdir) = [p]) ∧
    (∀ (pg : PageScript),
      doc.load_page (p - 1) = LoadResult.loaded pg → pg.stepsOk = true →
      blocksOk pg.blocks = true →
        printed (extract_page_images doc p outdir) = pageNames p (imageCount pg.blocks) ∧
        saved (extract_page_images doc p outdir) =
          (pageNames p (imageCount pg.blocks)).map (pathbuf outdir)) := by
  have hsaved := saved_eq_map_printed doc p outdir
  refine ⟨hsaved, by rw [hsaved, List.length_map], ?_, ?_⟩
  · intro pg pre post g s hl hst hblocks hpre hfail
    have hm : imagesBeforeFailure pg.blocks = imageCount pre := by
      rw [hblocks]
      exact imagesBeforeFailure_split pre post g s hpre hfail
    have hbad : blocksOk pg.blocks = false := by
      rw [hblocks, blocksOk_append]
      rcases hfail with h | h <;> simp [blocksOk, h]
    refine ⟨?_, ?_, ?_⟩
    · rw [printed_page_of_steps doc p outdir pg hl hst, hm]
    · rw [saved_page_of_steps doc p outdir pg hl hst, hm]
    · rw [warnings_page, pageOk_of_loaded doc p pg hl, hst, hbad]
      rfl
  · intro pg hl hst hb
    rw [printed_page_of_steps doc p outdir pg hl hst, saved_page_of_steps doc p outdir pg hl hst,
      imagesBeforeFailure_of_ok _ hb]
    exact ⟨rfl, rfl⟩

/-- Witness for C9: page 7 of the sample document has three images and the
save of the second fails; only the first name is emitted. -/
theorem C9_names_stop_at_first_failure_witness :
    printed (extract_page_images sampleDoc 7 ".".toList) = ["page-007-img-0001".toList] ∧
    saved (extract_page_images sampleDoc 7 ".".toList) = ["./page-007-img-0001.png".toList] ∧
    warnings (extract_page_images sampleDoc 7 ".".toList) = [7] := by
  have h := (C9_names_stop_at_first_failure sampleDoc 7 ".".toList).2.2.1
    (goodPage [Block.image true true, Block.image true false, Block.image true true])
    [Block.image true true] [Block.image true true] true false
    (by decide) (by decide) (by decide) (by decide) (by decide)
  refine ⟨?_, ?_, h.2.2⟩
  · rw [h.1]; decide
  · rw [h.2.1]; decide


/-! ## `muimage_main` -/

/-- After a successful open and authentication exactly one of the two
`extract_range` calls is made, with the selected expression. -/
theorem mainBody_of_open (lib : Fitz) (argv : List CStr) (i : Nat)
    (filename password outdir : CStr) (doc : Document) (events : List Event)
    (hi : i ≤ argv.length)
    (hopen : lib.fz_open_document filename = some doc)
    (hauth : doc.needs_password = false ∨ doc.authenticate_password password = true)
    (hrun : extract_range lib doc (selectedRange lib argv i) outdir = some events) :
    mainBody lib argv i filename password outdir = some (Flow.normal, events) := by
  have hnot : ¬ (doc.needs_password = true ∧ doc.authenticate_password password = false) := by
    rintro ⟨h1, h2⟩
    rcases hauth with h | h
    · rw [h] at h1; exact Bool.noConfusion h1
    · rw [h] at h2; exact Bool.noConfusion h2
  unfold mainBody
  unfold selectedRange at hrun
  simp only [hopen, if_neg hnot]
  by_cases hsel : i = argv.length ∨ lib.fz_is_page_range (argv.getD i []) = false
  · have hsecond : ¬ (i < argv.length ∧ lib.fz_is_page_range (argv.getD i []) = true) := by
      rintro ⟨h1, h2⟩
      rcases hsel with h | h
      · omega
      · rw [h] at h2; exact Bool.noConfusion h2
    rw [if_pos hsel] at hrun
    simp only [if_pos hsel, if_neg hsecond, hrun, List.append_nil]
  · have hsecond : i < argv.length ∧ lib.fz_is_page_range (argv.getD i []) = true := by
      constructor
      · by_contra hc
        exact hsel (Or.inl (by omega))
      · by_contra hc
        exact hsel (Or.inr (by simpa using hc))
    rw [if_neg hsel] at hrun
    simp only [if_neg hsel, if_pos hsecond, hrun, List.nil_append]

/-- A run whose document opens and authenticates: exit status 0, and the
events are the set-up, one `extract_range` call, and the two drops. -/
theorem muimage_main_of_open (lib : Fitz) (argv : List CStr) (password outdir : CStr)
    (fz_optind : Nat) (doc : Document) (events : List Event)
    (hfile : fz_optind < argv.length)
    (hctx : lib.fz_new_context = true)
    (hopen : lib.fz_open_document (argv.getD fz_optind []) = some doc)
    (hauth : doc.needs_password = false ∨ doc.authenticate_password password = true)
    (hrun : extract_range lib doc (selectedRange lib argv (fz_optind + 1)) outdir =
      some events) :
    muimage_main lib argv (OptLoop.parsed password outdir fz_optind) =
      some (0, (if lib.fz_mkdir outdir then [] else [Event.warn_mkdir outdir]) ++
        events ++ [Event.drop_document, Event.drop_context]) := by
  have hne : ¬ fz_optind = argv.length := by omega
  have hb := mainBody_of_open lib argv (fz_optind + 1) (argv.getD fz_optind []) password outdir
    doc events (by omega) hopen hauth hrun
  simp only [muimage_main, if_neg hne, hctx, hb, EXIT_SUCCESS]
  simp

/-- A run whose document does not open or does not authenticate makes no
`extract_range` call. -/
theorem mainBody_of_fatal (lib : Fitz) (argv : List CStr) (i : Nat)
    (filename password outdir : CStr)
    (h : lib.fz_open_document filename = none ∨
      ∃ doc, lib.fz_open_document filename = some doc ∧ doc.needs_password = true ∧
        doc.authenticate_password password = false) :
    mainBody lib argv i filename password outdir = some (Flow.thrown, []) := by
  unfold mainBody
  rcases h with h | ⟨doc, h, h1, h2⟩
  · simp only [h]
  · simp only [h, h1, h2, and_self, if_true]

theorem muimage_main_of_fatal (lib : Fitz) (argv : List CStr) (password outdir : CStr)
    (fz_optind : Nat)
    (h : lib.fz_open_document (argv.getD fz_optind []) = none ∨
      ∃ doc, lib.fz_open_document (argv.getD fz_optind []) = some doc ∧
        doc.needs_password = true ∧ doc.authenticate_password password = false) :
    ∃ r : Int × List Event,
      muimage_main lib argv (OptLoop.parsed password outdir fz_optind) = some r ∧
      r.1 = 1 ∧ extractCalls r.2 = [] ∧ rangeCalls r.2 = [] ∧ printed r.2 = [] ∧
      saved r.2 = [] := by
  have hb := mainBody_of_fatal lib argv (fz_optind + 1) (argv.getD fz_optind []) password outdir h
  unfold muimage_main
  by_cases hu : fz_optind = argv.length
  · exact ⟨(1, [Event.usage]), by simp only [if_pos hu], rfl, rfl, rfl, rfl, rfl⟩
  · by_cases hc : lib.fz_new_context = false
    · exact ⟨(1, [Event.no_context]), by simp only [if_neg hu, if_pos hc], rfl, rfl, rfl, rfl, rfl⟩
    · simp only [if_neg hu, if_neg hc, hb, EXIT_FAILURE]
      cases lib.fz_mkdir outdir <;>
        exact ⟨_, rfl, rfl, rfl, rfl, rfl, rfl⟩

theorem rangeCalls_pages (doc : Document) (outdir : CStr) (pages : List Int) :
    rangeCalls (pages.flatMap (fun p => extract_page_images doc p outdir)) = [] := by
  rw [reader_flatMap rangeCalls rfl rangeCalls_append]
  simp [rangeCalls_page]

/-! ## C5, C6 -/

/-- C5: in a run that gets to the selection (a file argument is present, the
context is created, the document opens and authenticates; the runs of the
selected pairs stay inside `int`) exactly one range expression is processed:
the literal `1-N` when no positional argument follows the file name or the
next one is not recognised as a page range, and that next argument
otherwise; never both and never neither. -/
theorem C5_exactly_one_range_is_processed (lib : Fitz) (argv : List CStr)
    (password outdir : CStr) (fz_optind : Nat) (doc : Document)
    (hfile : fz_optind < argv.length) (hctx : lib.fz_new_context = true)
    (hopen : lib.fz_open_document (argv.getD fz_optind []) = some doc)
    (hauth : doc.needs_password = false ∨ doc.authenticate_password password = true)
    (hint : pairsInInt (lib.fz_parse_page_range (selectedRange lib argv (fz_optind + 1))
      doc.count_pages) = true) :
    (muimage_main lib argv (OptLoop.parsed password outdir fz_optind)).map
        (fun r => rangeCalls r.2) =
      some [if fz_optind + 1 = argv.length ∨
          lib.fz_is_page_range (argv.getD (fz_optind + 1) []) = false
        then "1-N".toList else argv.getD (fz_optind + 1) []] ∧
    ∃ events : List Event,
      extract_range lib doc (selectedRange lib argv (fz_optind + 1)) outdir = some events ∧
      muimage_main lib argv (OptLoop.parsed password outdir fz_optind) =
        some (0, (if lib.fz_mkdir outdir then [] else [Event.warn_mkdir outdir]) ++
          events ++ [Event.drop_document, Event.drop_context]) := by
  have hrun := extract_range_eq lib doc (selectedRange lib argv (fz_optind + 1)) outdir hint
  have hmain := muimage_main_of_open lib argv password outdir fz_optind doc _ hfile hctx hopen
    hauth hrun
  refine ⟨?_, _, hrun, hmain⟩
  rw [hmain, Option.map_some']
  simp only [rangeCalls_append, rangeCalls, rangeCalls_pages]
  cases lib.fz_mkdir outdir <;> simp [rangeCalls, selectedRange]

/-- Witness for C5: `mutool a.pdf` processes `1-N`, `mutool a.pdf 2,5`
processes `2,5`, and `mutool a.pdf out` (not a range) processes `1-N`. -/
theorem C5_exactly_one_range_witness :
    (muimage_main (sampleLib [(1, 2)]) ["mutool".toList, "a.pdf".toList]
      (OptLoop.parsed [] ".".toList 1)).map (fun r => rangeCalls r.2) = some ["1-N".toList] ∧
    (muimage_main (sampleLib [(1, 2)]) ["mutool".toList, "a.pdf".toList, "2,5".toList]
      (OptLoop.parsed [] ".".toList 1)).map (fun r => rangeCalls r.2) = some ["2,5".toList] ∧
    (muimage_main (sampleLib [(1, 2)]) ["mutool".toList, "a.pdf".toList, "out".toList]
      (OptLoop.parsed [] ".".toList 1)).map (fun r => rangeCalls r.2) = some ["1-N".toList] := by
  have h1 := (C5_exactly_one_range_is_processed (sampleLib [(1, 2)])
    ["mutool".toList, "a.pdf".toList]
    [] ".".toList 1 sampleDoc (by decide) rfl rfl (Or.inl rfl) (by decide)).1
  have h2 := (C5_exactly_one_range_is_processed (sampleLib [(1, 2)])
    ["mutool".toList, "a.pdf".toList, "2,5".toList]
    [] ".".toList 1 sampleDoc (by decide) rfl rfl (Or.inl rfl) (by decide)).1
  have h3 := (C5_exactly_one_range_is_processed (sampleLib [(1, 2)])
    ["mutool".toList, "a.pdf".toList, "out".toList]
    [] ".".toList 1 sampleDoc (by decide) rfl rfl (Or.inl rfl) (by decide)).1
  refine ⟨?_, ?_, ?_⟩
  · rw [h1]; decide
  · rw [h2]; decide
  · rw [h3]; decide

/-- C6: when the document cannot be opened, or needs a password and the
supplied one does not authenticate, `muimage_main` never calls the page
extractor (no name, no file) and returns a non-zero status; when a file
argument is present, the context is created, the document opens and either
needs no password or authenticates, the per-page loop runs over the pages of
the selected expression (the runs of its pairs staying inside `int`) and the
status is 0. -/
theorem C6_fatal_before_extraction (lib : Fitz) (argv : List CStr) (password outdir : CStr)
    (fz_optind : Nat) :
    ((lib.fz_open_document (argv.getD fz_optind []) = none ∨
        ∃ doc, lib.fz_open_document (argv.getD fz_optind []) = some doc ∧
          doc.needs_password = true ∧ doc.authenticate_password password = false) →
      ∃ r : Int × List Event,
        muimage_main lib argv (OptLoop.parsed password outdir fz_optind) = some r ∧
        r.1 ≠ 0 ∧ extractCalls r.2 = [] ∧ printed r.2 = [] ∧ saved r.2 = []) ∧
    (∀ doc : Document, fz_optind < argv.length → lib.fz_new_context = true →
      lib.fz_open_document (argv.getD fz_optind []) = some doc →
      (doc.needs_password = false ∨ doc.authenticate_password password = true) →
      pairsInInt (lib.fz_parse_page_range (selectedRange lib argv (fz_optind + 1))
        doc.count_pages) = true →
      ∃ r : Int × List Event,
        muimage_main lib argv (OptLoop.parsed password outdir fz_optind) = some r ∧
        r.1 = 0 ∧
        extractCalls r.2 =
          specPages (lib.fz_parse_page_range (selectedRange lib argv (fz_optind + 1))
            doc.count_pages)) := by
  constructor
  · intro h
    obtain ⟨r, hr, h1, h2, -, h4, h5⟩ := muimage_main_of_fatal lib argv password outdir fz_optind h
    refine ⟨r, hr, ?_, h2, h4, h5⟩
    rw [h1]
    decide
  · intro doc hfile hctx hopen hauth hint
    have hrun := extract_range_eq lib doc (selectedRange lib argv (fz_optind + 1)) outdir hint
    refine ⟨_, muimage_main_of_open lib argv password outdir fz_optind doc _ hfile hctx hopen
      hauth hrun, rfl, ?_⟩
    simp only [extractCalls_append, extractCalls, extractCalls_pages]
    cases lib.fz_mkdir outdir <;> simp [extractCalls]

/-- Witness for C6: the locked sample document with a wrong password, a file
that does not open, and the locked document with the right password. -/
theorem C6_fatal_before_extraction_witness :
    (∃ r : Int × List Event,
      muimage_main (sampleLib [(1, 2)]) ["mutool".toList, "locked.pdf".toList]
        (OptLoop.parsed "bad".toList ".".toList 1) = some r ∧ r.1 ≠ 0 ∧ extractCalls r.2 = []) ∧
    (∃ r : Int × List Event,
      muimage_main (sampleLib [(1, 2)]) ["mutool".toList, "none.pdf".toList]
        (OptLoop.parsed [] ".".toList 1) = some r ∧ r.1 ≠ 0) ∧
    (∃ r : Int × List Event,
      muimage_main (sampleLib [(1, 2)]) ["mutool".toList, "locked.pdf".toList]
        (OptLoop.parsed "pw".toList ".".toList 1) = some r ∧ r.1 = 0 ∧
        extractCalls r.2 = [1, 2]) := by
  obtain ⟨r1, hr1, h1, h1b, -⟩ := (C6_fatal_before_extraction (sampleLib [(1, 2)])
    ["mutool".toList, "locked.pdf".toList] "bad".toList ".".toList 1).1
    (Or.inr ⟨lockedDoc, rfl, rfl, by decide⟩)
  obtain ⟨r2, hr2, h2, -⟩ := (C6_fatal_before_extraction (sampleLib [(1, 2)])
    ["mutool".toList, "none.pdf".toList] [] ".".toList 1).1 (Or.inl rfl)
  obtain ⟨r3, hr3, h3, h3b⟩ := (C6_fatal_before_extraction (sampleLib [(1, 2)])
    ["mutool".toList, "locked.pdf".toList] "pw".toList ".".toList 1).2 lockedDoc
    (by decide) rfl rfl (Or.inr (by decide)) (by decide)
  exact ⟨⟨r1, hr1, h1, h1b⟩, ⟨r2, hr2, h2⟩, ⟨r3, hr3, h3, h3b⟩⟩

/-! ## C3, C8 -/

theorem warnings_pages (doc : Document) (outdir : CStr) (pages : List Int) :
    warnings (pages.flatMap (fun p => extract_page_images doc p outdir)) =
      pages.filter (fun p => !pageOk doc p) := by
  rw [reader_flatMap warnings rfl warnings_append]
  induction pages with
  | nil => rfl
  | cons p t ih =>
    rw [List.flatMap_cons, ih, warnings_page, List.filter_cons]
    cases pageOk doc p <;> simp

/-- The events of a page call depend on the document only through the page
loaded. -/
theorem extract_page_images_congr (doc fixed : Document) (page_number : Int) (outdir : CStr)
    (h : fixed.load_page (page_number - 1) = doc.load_page (page_number - 1)) :
    extract_page_images doc page_number outdir = extract_page_images fixed page_number outdir := by
  simp only [extract_page_images, pageBody, h]

/-- C3: page failures are isolated.  In a run that gets to the page loop
(the runs of the selected pairs staying inside `int`), whatever library step
fails on whatever pages (load, page-level call, rasterization or save): the
exit status is 0; every page of the sequence is extracted, in order; the
warnings are exactly one per visited page on which a step fails, naming it;
the events of the run are those of the run on a document `fixed` in which the
failing pages are repaired, except for the events of the failing pages
themselves; and every page on which no step fails emits all its names. -/
theorem C3_page_failures_are_isolated (lib : Fitz) (argv : List CStr) (password outdir : CStr)
    (fz_optind : Nat) (doc fixed : Document)
    (hfile : fz_optind < argv.length) (hctx : lib.fz_new_context = true)
    (hopen : lib.fz_open_document (argv.getD fz_optind []) = some doc)
    (hauth : doc.needs_password = false ∨ doc.authenticate_password password = true)
    (hint : pairsInInt (lib.fz_parse_page_range (selectedRange lib argv (fz_optind + 1))
      doc.count_pages) = true)
    (hcount : fixed.count_pages = doc.count_pages)
    (hsame : ∀ p : Int, pageOk doc p = true →
      fixed.load_page (p - 1) = doc.load_page (p - 1)) :
    ∃ events repaired : List Event,
      muimage_main lib argv (OptLoop.parsed password outdir fz_optind) =
        some (0, (if lib.fz_mkdir outdir then [] else [Event.warn_mkdir outdir]) ++
          events ++ [Event.drop_document, Event.drop_context]) ∧
      extract_range lib doc (selectedRange lib argv (fz_optind + 1)) outdir = some events ∧
      extract_range lib fixed (selectedRange lib argv (fz_optind + 1)) outdir = some repaired ∧
      extractCalls events =
        specPages (lib.fz_parse_page_range (selectedRange lib argv (fz_optind + 1))
          doc.count_pages) ∧
      warnings events =
        (specPages (lib.fz_parse_page_range (selectedRange lib argv (fz_optind + 1))
          doc.count_pages)).filter (fun p => !pageOk doc p) ∧
      events = Event.range (selectedRange lib argv (fz_optind + 1)) ::
        (specPages (lib.fz_parse_page_range (selectedRange lib argv (fz_optind + 1))
          doc.count_pages)).flatMap
          (fun p => if pageOk doc p = true then extract_page_images fixed p outdir
            else extract_page_images doc p outdir) ∧
      repaired = Event.range (selectedRange lib argv (fz_optind + 1)) ::
        (specPages (lib.fz_parse_page_range (selectedRange lib argv (fz_optind + 1))
          doc.count_pages)).flatMap (fun p => extract_page_images fixed p outdir) ∧
      printed events =
        (specPages (lib.fz_parse_page_range (selectedRange lib argv (fz_optind + 1))
          doc.count_pages)).flatMap
          (fun p => if pageOk doc p = true then pageNames p (pageImages doc p)
            else printed (extract_page_images doc p outdir)) := by
  have hrun := extract_range_eq lib doc (selectedRange lib argv (fz_optind + 1)) outdir hint
  have hrep := extract_range_eq lib fixed (selectedRange lib argv (fz_optind + 1)) outdir
    (by rw [hcount]; exact hint)
  rw [hcount] at hrep
  refine ⟨_, _, muimage_main_of_open lib argv password outdir fz_optind doc _ hfile hctx hopen
    hauth hrun, hrun, hrep, ?_, ?_, ?_, rfl, ?_⟩
  · simp only [extractCalls, extractCalls_pages]
  · exact warnings_pages doc outdir _
  · congr 1
    apply List.flatMap_congr
    intro p _
    by_cases hp : pageOk doc p = true
    · rw [if_pos hp]
      exact extract_page_images_congr doc fixed p outdir (hsame p hp)
    · rw [if_neg hp]
  · refine Eq.trans (reader_flatMap printed rfl printed_append _ _) ?_
    apply List.flatMap_congr
    intro p _
    by_cases hp : pageOk doc p = true
    · rw [if_pos hp]
      exact printed_page_of_ok doc p outdir hp
    · rw [if_neg hp]

/-- Witness for C3: `mutool broken.pdf` on a document whose pages 1 to 9
each fail at a different library step, against the document with these pages
repaired: the status is 0, pages 1 to 10 are extracted in order, there is one
warning for each of the pages 1 to 9, and page 10 still emits its name. -/
theorem C3_page_failures_are_isolated_witness :
    (∃ events : List Event,
      muimage_main (sampleLib [(1, 10)]) ["mutool".toList, "broken.pdf".toList]
        (OptLoop.parsed [] ".".toList 1) =
          some (0, events ++ [Event.drop_document, Event.drop_context]) ∧
      extractCalls events = [1, 2, 3, 4, 5, 6, 7, 8, 9, 10] ∧
      warnings events = [1, 2, 3, 4, 5, 6, 7, 8, 9] ∧
      printed events = ["page-010-img-0001".toList]) ∧
    (muimage_main (sampleLib [(1, 10)]) ["mutool".toList, "broken.pdf".toList]
      (OptLoop.parsed [] ".".toList 1)).map (fun r => (r.1, warnings r.2, printed r.2)) =
        some (0, [1, 2, 3, 4, 5, 6, 7, 8, 9], ["page-010-img-0001".toList]) := by
  have hsame : ∀ p : Int, pageOk brokenDoc p = true →
      (repairedDoc brokenDoc).load_page (p - 1) = brokenDoc.load_page (p - 1) := by
    intro p hp
    have hp2 : pageOk brokenDoc (p - 1 + 1) = true := by
      rw [sub_add_cancel]
      exact hp
    simp only [repairedDoc, if_pos hp2]
  obtain ⟨events, repaired, hmain, -, -, hcalls, hwarn, -, -, hprinted⟩ :=
    C3_page_failures_are_isolated (sampleLib [(1, 10)])
      ["mutool".toList, "broken.pdf".toList] [] ".".toList 1 brokenDoc
      (repairedDoc brokenDoc) (by decide) rfl rfl (Or.inl rfl) (by decide) rfl hsame
  refine ⟨⟨events, hmain, ?_, ?_, ?_⟩, by decide⟩
  · rw [hcalls]; decide
  · rw [hwarn]; decide
  · rw [hprinted]; decide

theorem blockLoop_pixmaps_only (page_number : Int) (outdir : CStr) :
    ∀ (blocks : List Block) (img_index : Int),
      (acquired (blockLoop page_number outdir blocks img_index).2).filter Res.pageLevel = [] ∧
      (dropped (blockLoop page_number outdir blocks img_index).2).filter Res.pageLevel = [] := by
  intro blocks
  induction blocks with
  | nil => intro _; exact ⟨rfl, rfl⟩
  | cons b rest ih =>
    intro img_index
    cases b with
    | other => simpa [blockLoop] using ih img_index
    | image g s =>
      cases g <;> cases s <;>
        simp [blockLoop, acquired, dropped, Res.pageLevel, ih]

/-- On every exit path of a page call the page-level resources acquired
(page, structured page, device) are dropped once each, in reverse order of
acquisition. -/
theorem page_level_resources_dropped_in_reverse (doc : Document) (page_number : Int)
    (outdir : CStr) :
    (dropped (extract_page_images doc page_number outdir)).filter Res.pageLevel =
      ((acquired (extract_page_images doc page_number outdir)).filter Res.pageLevel).reverse := by
  simp only [extract_page_images, acquired, dropped, acquired_append, dropped_append,
    List.filter_append]
  have hc : ∀ f : Flow, acquired (pageCatch page_number f) = [] ∧
      dropped (pageCatch page_number f) = [] := by
    intro f
    cases f <;> exact ⟨rfl, rfl⟩
  rw [(hc _).1, (hc _).2]
  unfold pageBody
  cases hl : doc.load_page (page_number - 1) with
  | throws => rfl
  | null => rfl
  | loaded pg =>
    have hq := blockLoop_pixmaps_only page_number outdir pg.blocks 1
    by_cases h1 : pg.bound_page = false
    · simp [h1, acquired, dropped, pageAlways, Res.pageLevel]
    by_cases h2 : pg.new_stext_page = false
    · simp [h1, h2, acquired, dropped, pageAlways, Res.pageLevel]
    by_cases h3 : pg.new_stext_device = false
    · simp [h1, h2, h3, acquired, dropped, pageAlways, Res.pageLevel]
    by_cases h4 : pg.run_page = false
    · simp [h1, h2, h3, h4, acquired, dropped, pageAlways, Res.pageLevel]
    by_cases h5 : pg.close_device = false
    · simp [h1, h2, h3, h4, h5, acquired, dropped, pageAlways, Res.pageLevel]
    simp [h1, h2, h3, h4, h5, acquired, dropped, acquired_append, dropped_append, pageAlways,
      Res.pageLevel, hq]

/-- C8 (evaluation at the failing input): on page 7 of the sample document
the save of the second image throws.  The call acquires the page, the
structured page, the device and two pixmaps; it drops the first pixmap and
the three page-level resources in reverse order of acquisition, but the
second pixmap is never dropped. -/
theorem C8_pixmap_not_dropped_when_save_throws :
    acquired (extract_page_images sampleDoc 7 ".".toList) =
      [Res.page, Res.stext, Res.dev, Res.pix 1, Res.pix 2] ∧
    dropped (extract_page_images sampleDoc 7 ".".toList) =
      [Res.pix 1, Res.dev, Res.stext, Res.page] ∧
    Res.pix 2 ∉ dropped (extract_page_images sampleDoc 7 ".".toList) := by
  decide


/-! ## Decimal conversion -/

theorem digitVal_digitChar (d : Nat) (h : d < 10) : digitVal (digitChar d) = d := by
  interval_cases d <;> rfl

theorem isDigit_digitChar (d : Nat) : isDigit (digitChar d) = true := by
  unfold digitChar
  split <;> rfl

theorem digitsLoop_value : ∀ (fuel a : Nat), a ≤ fuel → decValueRev (digitsLoop fuel a) = a := by
  intro fuel
  induction fuel with
  | zero =>
    intro a h
    have : a = 0 := by omega
    subst this
    rfl
  | succ n ih =>
    intro a h
    by_cases h0 : a = 0
    · subst h0
      rfl
    · rw [digitsLoop, if_neg h0, decValueRev, digitVal_digitChar _ (Nat.mod_lt _ (by decide)),
        ih (a / 10) (by omega)]
      omega

theorem digitsLoop_digits : ∀ (fuel a : Nat), ∀ c ∈ digitsLoop fuel a, isDigit c = true := by
  intro fuel
  induction fuel with
  | zero => intro a c hc; simp [digitsLoop] at hc
  | succ n ih =>
    intro a c hc
    by_cases h0 : a = 0
    · simp [digitsLoop, h0] at hc
    · rw [digitsLoop, if_neg h0, List.mem_cons] at hc
      rcases hc with rfl | hc
      · exact isDigit_digitChar _
      · exact ih _ c hc

theorem digitsLoop_length : ∀ (fuel a w : Nat), a < 10 ^ w → (digitsLoop fuel a).length ≤ w := by
  intro fuel
  induction fuel with
  | zero => intro a w _; simp [digitsLoop]
  | succ n ih =>
    intro a w h
    by_cases h0 : a = 0
    · simp [digitsLoop, h0]
    · rw [digitsLoop, if_neg h0, List.length_cons]
      cases w with
      | zero => simp at h; omega
      | succ w =>
        have : a / 10 < 10 ^ w := by
          rw [pow_succ] at h
          omega
        have := ih (a / 10) w this
        omega

theorem fmtuint_value (a : Nat) : decValueRev (fmtuint a) = a := by
  unfold fmtuint
  by_cases h0 : a = 0
  · subst h0
    rfl
  · rw [if_neg h0]
    exact digitsLoop_value a a (le_refl a)

theorem fmtuint_digits (a : Nat) : ∀ c ∈ fmtuint a, isDigit c = true := by
  unfold fmtuint
  by_cases h0 : a = 0
  · intro c hc
    simp only [h0, if_true, List.mem_singleton] at hc
    subst hc
    rfl
  · rw [if_neg h0]
    exact digitsLoop_digits a a

theorem fmtuint_length (a w : Nat) (hw : 1 ≤ w) (h : a < 10 ^ w) : (fmtuint a).length ≤ w := by
  unfold fmtuint
  by_cases h0 : a = 0
  · simp [h0]
    omega
  · rw [if_neg h0]
    exact digitsLoop_length a a w h

theorem decValue_snoc (s : CStr) (c : Char) :
    decValue (s ++ [c]) = 10 * decValue s + digitVal c := by
  simp [decValue, List.foldl_append]

theorem decValue_reverse (l : List Char) : decValue l.reverse = decValueRev l := by
  induction l with
  | nil => rfl
  | cons c cs ih =>
    rw [List.reverse_cons, decValue_snoc, ih, decValueRev]
    omega

theorem decValue_zeros (n : Nat) (s : CStr) :
    decValue (List.replicate n '0' ++ s) = decValue s := by
  induction n with
  | zero => rfl
  | succ n ih =>
    have h0 : ∀ t : CStr, decValue ('0' :: t) = decValue t := by
      intro t
      simp [decValue, digitVal]
    rw [List.replicate_succ, List.cons_append, h0, ih]

/-- The `%0<w>d` conversion of a value that is not negative. -/
theorem fmtint_of_nonneg (w : Nat) (v : Int) (hv : 0 ≤ v) :
    fmtint w v =
      List.replicate (w - (fmtuint v.natAbs).length) '0' ++ (fmtuint v.natAbs).reverse := by
  unfold fmtint
  simp only [if_neg (not_lt.mpr hv)]

theorem fmtint_value (w : Nat) (v : Int) (hv : 0 ≤ v) : (decValue (fmtint w v) : Int) = v := by
  rw [fmtint_of_nonneg w v hv, decValue_zeros, decValue_reverse, fmtuint_value]
  omega

theorem fmtint_digits (w : Nat) (v : Int) (hv : 0 ≤ v) : ∀ c ∈ fmtint w v, isDigit c = true := by
  rw [fmtint_of_nonneg w v hv]
  intro c hc
  rw [List.mem_append] at hc
  rcases hc with hc | hc
  · rw [List.mem_replicate] at hc
    rw [hc.2]
    rfl
  · exact fmtuint_digits _ c (List.mem_reverse.mp hc)

/-- A value of at most `w` digits is printed in exactly `w` characters. -/
theorem fmtint_length_eq (w : Nat) (v : Int) (hw : 1 ≤ w) (hv : 0 ≤ v) (h : v < 10 ^ w) :
    (fmtint w v).length = w := by
  rw [fmtint_of_nonneg w v hv]
  have hl := fmtuint_length v.natAbs w hw (by zify; rw [abs_of_nonneg hv]; exact_mod_cast h)
  simp only [List.length_append, List.length_replicate, List.length_reverse]
  omega

/-- An `int` that is not negative is printed in at most ten characters. -/
theorem fmtint_length_le (w : Nat) (v : Int) (hw : w ≤ 10) (hv : 0 ≤ v) (h : v ≤ INT_MAX) :
    (fmtint w v).length ≤ 10 := by
  rw [fmtint_of_nonneg w v hv]
  have hl := fmtuint_length v.natAbs 10 (by decide) (by unfold INT_MAX at h; omega)
  simp only [List.length_append, List.length_replicate, List.length_reverse]
  omega

theorem fz_snprintf_fits (size : Nat) (s : CStr) (h : s.length ≤ size - 1) :
    fz_snprintf size s = s := by
  unfold fz_snprintf
  exact List.take_of_length_le h

/-- The name buffer is never too small for the name of an `int` page number
and index that are not negative. -/
theorem namebuf_fits (p i : Int) (hp : 0 ≤ p) (hp2 : p ≤ INT_MAX) (hi : 0 ≤ i)
    (hi2 : i ≤ INT_MAX) :
    namebuf p i = "page-".toList ++ fmtint 3 p ++ "-img-".toList ++ fmtint 4 i := by
  unfold namebuf
  apply fz_snprintf_fits
  have h1 := fmtint_length_le 3 p (by decide) hp hp2
  have h2 := fmtint_length_le 4 i (by decide) hi hi2
  simp only [List.length_append]
  have e1 : "page-".toList.length = 5 := by decide
  have e2 : "-img-".toList.length = 5 := by decide
  omega

theorem namebuf_length_le (p i : Int) (hp : 0 ≤ p) (hp2 : p ≤ INT_MAX) (hi : 0 ≤ i)
    (hi2 : i ≤ INT_MAX) : (namebuf p i).length ≤ 30 := by
  rw [namebuf_fits p i hp hp2 hi hi2]
  have h1 := fmtint_length_le 3 p (by decide) hp hp2
  have h2 := fmtint_length_le 4 i (by decide) hi hi2
  simp only [List.length_append]
  have e1 : "page-".toList.length = 5 := by decide
  have e2 : "-img-".toList.length = 5 := by decide
  omega

/-- Two texts that agree up to and after a separator absent from their
first parts have the same parts. -/
theorem append_sep_inj (c : Char) :
    ∀ (a b r t : List Char), (∀ x ∈ a, x ≠ c) → (∀ x ∈ b, x ≠ c) →
      a ++ c :: r = b ++ c :: t → a = b ∧ r = t := by
  intro a
  induction a with
  | nil =>
    intro b r t _ hb h
    cases b with
    | nil => simpa using h
    | cons y b =>
      simp only [List.nil_append, List.cons_append, List.cons.injEq] at h
      exact absurd h.1.symm (hb y (List.mem_cons_self _ _))
  | cons x a ih =>
    intro b r t ha hb h
    cases b with
    | nil =>
      simp only [List.nil_append, List.cons_append, List.cons.injEq] at h
      exact absurd h.1 (ha x (List.mem_cons_self _ _))
    | cons y b =>
      simp only [List.cons_append, List.cons.injEq] at h
      obtain ⟨hab, hrt⟩ := ih b r t (fun z hz => ha z (List.mem_cons_of_mem _ hz))
        (fun z hz => hb z (List.mem_cons_of_mem _ hz)) h.2
      exact ⟨by rw [h.1, hab], hrt⟩

theorem isDigit_ne_minus (c : Char) (h : isDigit c = true) : c ≠ '-' := by
  intro hc
  subst hc
  exact absurd h (by decide)

/-- The name determines the page number and the index. -/
theorem namebuf_inj (p i q j : Int) (hp : 0 ≤ p) (hp2 : p ≤ INT_MAX) (hi : 0 ≤ i)
    (hi2 : i ≤ INT_MAX) (hq : 0 ≤ q) (hq2 : q ≤ INT_MAX) (hj : 0 ≤ j) (hj2 : j ≤ INT_MAX)
    (h : namebuf p i = namebuf q j) : p = q ∧ i = j := by
  rw [namebuf_fits p i hp hp2 hi hi2, namebuf_fits q j hq hq2 hj hj2] at h
  have h2 : fmtint 3 p ++ '-' :: ("img-".toList ++ fmtint 4 i) =
      fmtint 3 q ++ '-' :: ("img-".toList ++ fmtint 4 j) := by
    have h3 := h
    simp only [List.append_assoc] at h3
    exact List.append_cancel_left h3
  obtain ⟨hA, hB⟩ := append_sep_inj '-' _ _ _ _
    (fun x hx => isDigit_ne_minus x (fmtint_digits 3 p hp x hx))
    (fun x hx => isDigit_ne_minus x (fmtint_digits 3 q hq x hx)) h2
  have hB2 := List.append_cancel_left hB
  constructor
  · rw [← fmtint_value 3 p hp, ← fmtint_value 3 q hq, hA]
  · rw [← fmtint_value 4 i hi, ← fmtint_value 4 j hj, hB2]


/-! ## C7, C10: the name -/

/-- C7 (as stated, refuted): the name of page 2, image 3 is
`page-002-img-0003`, which has 17 characters, not 18; the name of page 1000,
image 1 is `page-1000-img-0001`, whose page field has four digits, so it is
not of the stated format; and with an output directory of 1020 characters the
path written is not `output_dir/name.png` but its first 1023 characters. -/
theorem C7_name_format_counterexample :
    (namebuf 2 3 = "page-002-img-0003".toList ∧ (namebuf 2 3).length ≠ 18) ∧
    (namebuf 1000 1 = "page-1000-img-0001".toList ∧ ¬ NameFormat (namebuf 1000 1) 1000 1) ∧
    pathbuf (List.replicate 1020 'd') (namebuf 2 3) ≠
      List.replicate 1020 'd' ++ "/".toList ++ namebuf 2 3 ++ ".png".toList := by
  refine ⟨⟨by decide, by decide⟩, ⟨by decide, ?_⟩, ?_⟩
  · rintro ⟨d3, d4, h, h3, h4, -⟩
    have hl := congrArg List.length h
    have e : (namebuf 1000 1).length = 18 := by decide
    have e1 : "page-".toList.length = 5 := by decide
    have e2 : "-img-".toList.length = 5 := by decide
    simp only [List.length_append, e, e1, e2, h3, h4] at hl
    omega
  · intro h
    have hl := congrArg List.length h
    have e : (namebuf 2 3).length = 17 := by decide
    have e1 : "/".toList.length = 1 := by decide
    have e2 : ".png".toList.length = 4 := by decide
    simp only [pathbuf, fz_snprintf, List.length_take, List.length_append, List.length_replicate,
      e, e1, e2] at hl
    omega

/-- C7 (amended): for a page number from 1 to 999 and an image index from 1
to 9999 the name is `page-`, exactly three decimal digits of value `p`,
`-img-`, exactly four decimal digits of value `i`, 17 characters in all; and
the path written is `output_dir/name.png` whenever the output directory has
at most 1001 characters, so that the path fits the 1024-byte buffer. -/
theorem C7_name_format_amended (p i : Int) (hp : 1 ≤ p) (hp2 : p ≤ 999) (hi : 1 ≤ i)
    (hi2 : i ≤ 9999) :
    NameFormat (namebuf p i) p i ∧
    (namebuf p i).length = 17 ∧
    (∀ outdir : CStr, outdir.length ≤ 1001 →
      pathbuf outdir (namebuf p i) = outdir ++ "/".toList ++ namebuf p i ++ ".png".toList) := by
  have hfit := namebuf_fits p i (by omega) (by unfold INT_MAX; omega) (by omega)
    (by unfold INT_MAX; omega)
  have h3 := fmtint_length_eq 3 p (by decide) (by omega) (by norm_num; omega)
  have h4 := fmtint_length_eq 4 i (by decide) (by omega) (by norm_num; omega)
  have e1 : "page-".toList.length = 5 := by decide
  have e2 : "-img-".toList.length = 5 := by decide
  have hlen : (namebuf p i).length = 17 := by
    rw [hfit]
    simp only [List.length_append, e1, e2, h3, h4]
  refine ⟨⟨fmtint 3 p, fmtint 4 i, hfit, h3, h4, fmtint_digits 3 p (by omega),
    fmtint_digits 4 i (by omega), fmtint_value 3 p (by omega), fmtint_value 4 i (by omega)⟩,
    hlen, ?_⟩
  intro outdir ho
  unfold pathbuf
  apply fz_snprintf_fits
  have e3 : "/".toList.length = 1 := by decide
  have e4 : ".png".toList.length = 4 := by decide
  simp only [List.length_append, hlen, e3, e4]
  omega

/-- Witness for C7 (amended): page 999, image 9999, output directory `out`. -/
theorem C7_name_format_amended_witness :
    NameFormat (namebuf 999 9999) 999 9999 ∧ (namebuf 999 9999).length = 17 ∧
    pathbuf "out".toList (namebuf 999 9999) = "out/page-999-img-9999.png".toList := by
  have h := C7_name_format_amended 999 9999 (by decide) (by decide) (by decide) (by decide)
  refine ⟨h.1, h.2.1, ?_⟩
  rw [h.2.2 "out".toList (by decide)]
  decide

/-- C10: the name function is collision-free on `int` page numbers and image
indices from 1 up, also above 999 and 9999 where the fields grow wider: equal
names come from equal page numbers and equal indices. -/
theorem C10_names_are_collision_free (p i q j : Int) (hp : 1 ≤ p) (hp2 : p ≤ INT_MAX)
    (hi : 1 ≤ i) (hi2 : i ≤ INT_MAX) (hq : 1 ≤ q) (hq2 : q ≤ INT_MAX) (hj : 1 ≤ j)
    (hj2 : j ≤ INT_MAX) (h : namebuf p i = namebuf q j) : p = q ∧ i = j :=
  namebuf_inj p i q j (by omega) hp2 (by omega) hi2 (by omega) hq2 (by omega) hj2 h

/-- Witness for C10: page 12345 with image 1 and page 1234 with image 51
(fields wider than the padding) have different names, and the largest `int`
values are covered. -/
theorem C10_names_are_collision_free_witness :
    namebuf 12345 1 ≠ namebuf 1234 51 ∧
    (namebuf 2147483647 2147483647 = namebuf 2147483647 2147483647 →
      (2147483647 : Int) = 2147483647 ∧ (2147483647 : Int) = 2147483647) := by
  refine ⟨fun h => ?_, fun h => ?_⟩
  · have h2 := C10_names_are_collision_free 12345 1 1234 51 (by decide) (by decide) (by decide)
      (by decide) (by decide) (by decide) (by decide) (by decide) h
    exact absurd h2.1 (by decide)
  · exact C10_names_are_collision_free 2147483647 2147483647 2147483647 2147483647 (by decide)
      (by decide) (by decide) (by decide) (by decide) (by decide) (by decide) (by decide) h


/-! ## C4: names within a run -/

theorem imagesBeforeFailure_le : ∀ blocks : List Block,
    imagesBeforeFailure blocks ≤ imageCount blocks := by
  intro blocks
  induction blocks with
  | nil => exact le_refl _
  | cons b t ih =>
    cases b with
    | other => simpa [imagesBeforeFailure, imageCount] using ih
    | image g s =>
      simp only [imagesBeforeFailure, imageCount]
      split <;> omega

/-- The names a page call prints are the names of indices `1..m` of the page,
for some `m` that is at most the number of its image blocks. -/
theorem printed_page_shape (doc : Document) (p : Int) (outdir : CStr) :
    ∃ m : Nat, m ≤ pageImages doc p ∧
      printed (extract_page_images doc p outdir) = pageNames p m := by
  by_cases hs : ∃ pg, doc.load_page (p - 1) = LoadResult.loaded pg ∧ pg.stepsOk = true
  · obtain ⟨pg, hl, hst⟩ := hs
    refine ⟨imagesBeforeFailure pg.blocks, ?_, printed_page_of_steps doc p outdir pg hl hst⟩
    simp only [pageImages, hl]
    exact imagesBeforeFailure_le pg.blocks
  · have hn : ∀ pg, doc.load_page (p - 1) = LoadResult.loaded pg → pg.stepsOk = false := by
      intro pg hl
      by_contra hc
      exact hs ⟨pg, hl, by simpa using hc⟩
    have h := pageBody_of_not_steps doc p outdir hn
    exact ⟨0, Nat.zero_le _, by rw [printed_page, h.2.1]; rfl⟩

theorem mem_pageNames (p : Int) (m : Nat) (n : CStr) :
    n ∈ pageNames p m ↔ ∃ k : Nat, k < m ∧ n = namebuf p ((k : Int) + 1) := by
  simp only [pageNames, List.mem_map, List.mem_range]
  constructor
  · rintro ⟨k, hk, rfl⟩
    exact ⟨k, hk, rfl⟩
  · rintro ⟨k, hk, rfl⟩
    exact ⟨k, hk, rfl⟩

theorem pageNames_nodup (p : Int) (m : Nat) (hp : 0 ≤ p) (hp2 : p ≤ INT_MAX)
    (hm : (m : Int) ≤ INT_MAX) : (pageNames p m).Nodup := by
  unfold pageNames
  apply List.Nodup.map_on _ (List.nodup_range m)
  intro a ha b hb hab
  rw [List.mem_range] at ha hb
  have h := (namebuf_inj p ((a : Int) + 1) p ((b : Int) + 1) hp hp2 (by omega) (by omega) hp hp2
    (by omega) (by omega) hab).2
  omega

theorem pageNames_disjoint (p q : Int) (m k : Nat) (hpq : p ≠ q) (hp : 0 ≤ p)
    (hp2 : p ≤ INT_MAX) (hq : 0 ≤ q) (hq2 : q ≤ INT_MAX) (hm : (m : Int) ≤ INT_MAX)
    (hk : (k : Int) ≤ INT_MAX) : List.Disjoint (pageNames p m) (pageNames q k) := by
  intro n hn1 hn2
  obtain ⟨a, ha, rfl⟩ := (mem_pageNames p m n).mp hn1
  obtain ⟨b, hb, hab⟩ := (mem_pageNames q k _).mp hn2
  exact hpq (namebuf_inj p ((a : Int) + 1) q ((b : Int) + 1) hp hp2 (by omega) (by omega) hq hq2
    (by omega) (by omega) hab).1

theorem pathbuf_fits (outdir name : CStr) (ho : outdir.length ≤ 988) (hn : name.length ≤ 30) :
    pathbuf outdir name = outdir ++ "/".toList ++ name ++ ".png".toList := by
  unfold pathbuf
  apply fz_snprintf_fits
  have e3 : "/".toList.length = 1 := by decide
  have e4 : ".png".toList.length = 4 := by decide
  simp only [List.length_append, e3, e4]
  omega

theorem pathbuf_inj (outdir a b : CStr) (ho : outdir.length ≤ 988) (ha : a.length ≤ 30)
    (hb : b.length ≤ 30) (h : pathbuf outdir a = pathbuf outdir b) : a = b := by
  rw [pathbuf_fits outdir a ho ha, pathbuf_fits outdir b ho hb] at h
  exact List.append_cancel_left (List.append_cancel_right h)

/-- The names of a run over distinct pages are distinct. -/
theorem printed_pages_nodup (doc : Document) (outdir : CStr) (pages : List Int)
    (hnodup : pages.Nodup) (hrange : ∀ p ∈ pages, 0 ≤ p ∧ p ≤ INT_MAX)
    (himgs : ∀ p ∈ pages, (pageImages doc p : Int) ≤ INT_MAX) :
    (pages.flatMap (fun p => printed (extract_page_images doc p outdir))).Nodup := by
  rw [List.nodup_flatMap]
  constructor
  · intro p hp
    obtain ⟨m, hm, hpr⟩ := printed_page_shape doc p outdir
    rw [hpr]
    have := himgs p hp
    exact pageNames_nodup p m (hrange p hp).1 (hrange p hp).2 (by omega)
  · refine List.Pairwise.imp_of_mem ?_ hnodup
    intro p q hp hq hpq
    obtain ⟨m, hm, hpr⟩ := printed_page_shape doc p outdir
    obtain ⟨k, hk, hqr⟩ := printed_page_shape doc q outdir
    have h1 := himgs p hp
    have h2 := himgs q hq
    simp only [Function.onFun, hpr, hqr]
    exact pageNames_disjoint p q m k hpq (hrange p hp).1 (hrange p hp).2 (hrange q hq).1
      (hrange q hq).2 (by omega) (by omega)

theorem printed_pages_length (doc : Document) (outdir : CStr) (pages : List Int)
    (hrange : ∀ p ∈ pages, 0 ≤ p ∧ p ≤ INT_MAX)
    (himgs : ∀ p ∈ pages, (pageImages doc p : Int) ≤ INT_MAX) :
    ∀ n ∈ pages.flatMap (fun p => printed (extract_page_images doc p outdir)),
      n.length ≤ 30 := by
  intro n hn
  rw [List.mem_flatMap] at hn
  obtain ⟨p, hp, hnp⟩ := hn
  obtain ⟨m, hm, hpr⟩ := printed_page_shape doc p outdir
  rw [hpr] at hnp
  obtain ⟨a, ha, rfl⟩ := (mem_pageNames p m n).mp hnp
  have := himgs p hp
  exact namebuf_length_le p _ (hrange p hp).1 (hrange p hp).2 (by omega) (by omega)

theorem saved_pages (doc : Document) (outdir : CStr) (pages : List Int) :
    saved (pages.flatMap (fun p => extract_page_images doc p outdir)) =
      (pages.flatMap (fun p => printed (extract_page_images doc p outdir))).map
        (pathbuf outdir) := by
  rw [reader_flatMap saved rfl saved_append, List.map_flatMap]
  apply List.flatMap_congr
  intro p _
  exact saved_eq_map_printed doc p outdir

/-- C4 (as stated, refuted): for the expression `2,2` the parser yields the
pairs (2,2),(2,2); page 2 of the sample document is extracted twice, so each
of its three names is emitted twice and each of its files is written
twice. -/
theorem C4_names_unique_counterexample :
    (extract_range (sampleLib [(2, 2), (2, 2)]) sampleDoc "2,2".toList ".".toList).map printed =
      some ["page-002-img-0001".toList, "page-002-img-0002".toList,
        "page-002-img-0003".toList, "page-002-img-0001".toList, "page-002-img-0002".toList,
        "page-002-img-0003".toList] ∧
    ∃ events : List Event,
      extract_range (sampleLib [(2, 2), (2, 2)]) sampleDoc "2,2".toList ".".toList =
        some events ∧
      ¬ (printed events).Nodup ∧ ¬ (saved events).Nodup := by
  refine ⟨by decide, ?_⟩
  have h := extract_range_eq (sampleLib [(2, 2), (2, 2)]) sampleDoc "2,2".toList ".".toList
    (by decide)
  exact ⟨_, h, by decide, by decide⟩

/-- C4 (amended): when the pairs of the selection visit no page more than
once (the runs staying inside `int`, page numbers and per-page image counts
being `int` values that are not negative), no name is emitted more than once
during the run, and, the output directory having at most 988 characters so
that every path fits the 1024-byte buffer, no output file path is written
more than once. -/
theorem C4_names_unique_amended (lib : Fitz) (doc : Document) (range outdir : CStr)
    (hint : pairsInInt (lib.fz_parse_page_range range doc.count_pages) = true)
    (hnodup : (specPages (lib.fz_parse_page_range range doc.count_pages)).Nodup)
    (hrange : ∀ p ∈ specPages (lib.fz_parse_page_range range doc.count_pages),
      0 ≤ p ∧ p ≤ INT_MAX)
    (himgs : ∀ p ∈ specPages (lib.fz_parse_page_range range doc.count_pages),
      (pageImages doc p : Int) ≤ INT_MAX) :
    ∃ events : List Event,
      extract_range lib doc range outdir = some events ∧
      (printed events).Nodup ∧
      (outdir.length ≤ 988 → (saved events).Nodup) := by
  refine ⟨_, extract_range_eq lib doc range outdir hint, ?_⟩
  have hp : printed (Event.range range ::
      (specPages (lib.fz_parse_page_range range doc.count_pages)).flatMap
        (fun p => extract_page_images doc p outdir)) =
      (specPages (lib.fz_parse_page_range range doc.count_pages)).flatMap
        (fun p => printed (extract_page_images doc p outdir)) :=
    reader_flatMap printed rfl printed_append _ _
  have hs : saved (Event.range range ::
      (specPages (lib.fz_parse_page_range range doc.count_pages)).flatMap
        (fun p => extract_page_images doc p outdir)) =
      ((specPages (lib.fz_parse_page_range range doc.count_pages)).flatMap
        (fun p => printed (extract_page_images doc p outdir))).map (pathbuf outdir) :=
    saved_pages doc outdir _
  have hn := printed_pages_nodup doc outdir _ hnodup hrange himgs
  refine ⟨by rw [hp]; exact hn, ?_⟩
  intro ho
  rw [hs]
  apply List.Nodup.map_on _ hn
  intro a ha b hb hab
  exact pathbuf_inj outdir a b ho (printed_pages_length doc outdir _ hrange himgs a ha)
    (printed_pages_length doc outdir _ hrange himgs b hb) hab

/-- Witness for C4 (amended): the expression `7-1` over the sample document
visits pages 7 down to 1, each once. -/
theorem C4_names_unique_amended_witness :
    ∃ events : List Event,
      extract_range (sampleLib [(7, 1)]) sampleDoc "7-1".toList ".".toList = some events ∧
      (printed events).Nodup ∧ (saved events).Nodup := by
  obtain ⟨events, h, hp, hs⟩ := C4_names_unique_amended (sampleLib [(7, 1)]) sampleDoc
    "7-1".toList ".".toList (by decide) (by decide) (by decide) (by decide)
  exact ⟨events, h, hp, hs (by decide)⟩

end MuImage
